import Mathlib

/-!
# Verification of the mini-React reconciliation engine

A shallow embedding of the repository's core modules:

* `core/elements.ts` — tree normalization (`normalizeNode`, `createElement`,
  `createChildPath`) and the hook primitives (`useState`, `useEffect`,
  `cleanupUnusedHooks`),
* `core/dom.ts` — the host adapter (`setDomProps`, `updateDomProps`,
  `getDomNodes`, `getFirstDom`, `insertInstance`, `removeInstance`),
* `core/reconciler.ts` / `core/render.ts` — `reconcile`, `render`,
  `flushEffects`, `enqueueRender`,
* the root controller `setup`,
* `utils.ts` — `shallowEquals`.

JavaScript runtime values are modelled by the inductive `Value` (no floats:
the claims under verification only involve integers, strings and booleans,
so `NaN`/`-0` subtleties of `Object.is` do not arise; object and function
identity is modelled by a numeric id).  DOM nodes are numeric handles into an
explicit `DomState`; mutation is explicit state passing.  Components are
invoked through a pure environment `CompEnv`; recursion through component
output is bounded by an explicit `fuel` parameter (the real code would grow
the call stack without bound in the same situation).
-/

set_option maxHeartbeats 1000000

namespace MiniReact

/-- A primitive JavaScript value (used as an object's field value; the only
object props the core ever enumerates are `style` maps, whose entries are
primitives). -/
inductive Prim where
  | undef : Prim
  | nullV : Prim
  | bool (b : Bool) : Prim
  | int (n : Int) : Prim
  | str (s : String) : Prim
  deriving Repr, BEq, DecidableEq

/-- A JavaScript runtime value.  `obj`/`fnV` carry an identity token: two
values are `Object.is`-equal iff they are structurally equal here, which for
objects and functions models reference equality (each allocated object gets a
distinct id). -/
inductive Value where
  | undef : Value
  | nullV : Value
  | bool (b : Bool) : Value
  | int (n : Int) : Value
  | str (s : String) : Value
  | fnV (id : Nat) : Value
  | obj (id : Nat) (fields : List (String × Prim)) : Value
  deriving Repr, BEq, DecidableEq

/-- `Object.is` on modelled values (structural equality; see `Value`). -/
def objectIs (a b : Value) : Bool := decide (a = b)

/-- JavaScript truthiness of a modelled value. -/
def Value.truthy : Value → Bool
  | .undef => false
  | .nullV => false
  | .bool b => b
  | .int n => n != 0
  | .str s => s ≠ ""
  | .fnV _ => true
  | .obj _ _ => true

/-- `typeof v === "object"` (`null` also reports `"object"` in JS, but the
only place the code uses this test it immediately enumerates the object's
keys, which throws on `null`; the claims never exercise a `null`-valued
`style` prop, so the model identifies the test with "is a proper object"). -/
def Value.isObjectType : Value → Bool
  | .obj _ _ => true
  | _ => false

/-- `typeof v === "function"`. -/
def Value.isFunctionType : Value → Bool
  | .fnV _ => true
  | _ => false

/-- `String(v)` as used for key stringification and text payloads. -/
def Value.jsString : Value → String
  | .undef => "undefined"
  | .nullV => "null"
  | .bool b => if b then "true" else "false"
  | .int n => toString n
  | .str s => s
  | .fnV _ => "function"
  | .obj _ _ => "[object Object]"

/-- The `type` field of a VNode: the `TEXT_ELEMENT` marker, the `Fragment`
marker, a host tag name, or a component function (identity id plus its
`displayName || name` for path generation). -/
inductive VType where
  | text : VType
  | fragment : VType
  | host (tag : String) : VType
  | comp (id : Nat) (name : String) : VType
  deriving Repr, BEq, DecidableEq

/-- A virtual node.  `props` is split into `attrs` (every prop except
`children`) and the normalized `children` list; a text node stores its
payload under the `"nodeValue"` key of `attrs`, exactly as the source keeps
it in `props.nodeValue`. -/
inductive VNode where
  | mk (ty : VType) (key : Option Value) (attrs : List (String × Value))
       (children : List VNode) : VNode
  deriving Repr

def VNode.ty : VNode → VType
  | .mk t _ _ _ => t

def VNode.key : VNode → Option Value
  | .mk _ k _ _ => k

def VNode.attrs : VNode → List (String × Value)
  | .mk _ _ a _ => a

def VNode.children : VNode → List VNode
  | .mk _ _ _ c => c

/-- Association-list lookup used throughout for JS object / `Map` access. -/
def alookup {κ α : Type} [DecidableEq κ] (k : κ) : List (κ × α) → Option α
  | [] => none
  | (k', v) :: rest => if k' = k then some v else alookup k rest

/-- `Map.set` / JS object key assignment: overwrite in place when the key is
present (insertion order preserved), append otherwise. -/
def aset {κ α : Type} [DecidableEq κ] (k : κ) (v : α) :
    List (κ × α) → List (κ × α)
  | [] => [(k, v)]
  | (k', v') :: rest =>
      if k' = k then (k, v) :: rest else (k', v') :: aset k v rest

theorem alookup_aset_self {κ α : Type} [DecidableEq κ] (k : κ) (v : α)
    (l : List (κ × α)) : alookup k (aset k v l) = some v := by
  induction l with
  | nil => simp [aset, alookup]
  | cons kv rest ih =>
      by_cases h : kv.1 = k
      · simp [aset, h, alookup]
      · simp [aset, h, alookup, ih]

theorem alookup_aset_ne {κ α : Type} [DecidableEq κ] (k k' : κ) (v : α)
    (l : List (κ × α)) (h : k ≠ k') : alookup k' (aset k v l) = alookup k' l := by
  induction l with
  | nil => simp [aset, alookup, h]
  | cons kv rest ih =>
      by_cases hk : kv.1 = k
      · simp [aset, hk, alookup, h]
      · simp only [aset, hk, if_false]
        by_cases hk' : kv.1 = k'
        · simp [alookup, hk']
        · simp [alookup, hk', ih]

/-! ## Tree normalization (`core/elements.ts`) -/

/-- A raw child value as fed to `createElement` / `normalizeNode`:
`null`, `undefined`, booleans, strings, numbers, nested arrays, or an
already-built VNode. -/
inductive Child where
  | null : Child
  | undef : Child
  | bool (b : Bool) : Child
  | str (s : String) : Child
  | num (n : Int) : Child
  | node (v : VNode) : Child
  | arr (cs : List Child) : Child
  deriving Repr

/-- Modelled from the spec: `isEmptyValue` lives in the repository's
`utils.ts`, which is not among the provided sources; per spec §4.1,
"null, undefined, boolean → null (render nothing)". -/
def isEmptyValue : Child → Bool
  | .null => true
  | .undef => true
  | .bool _ => true
  | _ => false

/-- `createTextElement`: wrap a primitive's string form in a Text VNode
(`{ type: TEXT_ELEMENT, key: null, props: { children: [], nodeValue } }`). -/
def createTextElement (payload : String) : VNode :=
  .mk .text none [("nodeValue", .str payload)] []

/-- `normalizeNode`.  The array branch of the source reads
`node.props.children` — but an array has no `props`, so the property access
throws a `TypeError`; this is modelled by `Except.error ()`. -/
def normalizeNode : Child → Except Unit (Option VNode)
  | c =>
    if isEmptyValue c then .ok none
    else
      match c with
      | .str s => .ok (some (createTextElement s))
      | .num n => .ok (some (createTextElement (toString n)))
      | .arr _ => .error ()
      | .node v => .ok (some v)
      | _ => .ok none

/-- `rawChildren.flat(Infinity)`. -/
def flattenChildren : List Child → List Child
  | [] => []
  | .arr cs :: rest => flattenChildren cs ++ flattenChildren rest
  | c :: rest => c :: flattenChildren rest

/-- Sequence `normalizeNode` over a list (`.map(normalizeNode)`), failing if
any element fails. -/
def normalizeAll : List Child → Except Unit (List (Option VNode))
  | [] => .ok []
  | c :: rest => do
      let v ← normalizeNode c
      let vs ← normalizeAll rest
      pure (v :: vs)

/-- `originProps?.key ?? null` (JS `??` treats both `null` and `undefined`
as absent). -/
def extractKey (originProps : Option (List (String × Value))) : Option Value :=
  match originProps with
  | none => none
  | some ps => match alookup "key" ps with
    | some .undef => none
    | some .nullV => none
    | some v => some v
    | none => none

/-- Copy of `originProps` without the `key` entry. -/
def extractAttrs (originProps : Option (List (String × Value))) :
    List (String × Value) :=
  match originProps with
  | none => []
  | some ps => ps.filter (fun kv => kv.1 ≠ "key")

/-- `createElement(type, originProps, ...rawChildren)`: extract `key`, copy
the remaining props, then flatten / normalize / null-filter the raw children
into `props.children` (left `[]` when no raw children were passed). -/
def createElement (ty : VType) (originProps : Option (List (String × Value)))
    (rawChildren : List Child) : Except Unit VNode := do
  let children ←
    if rawChildren.length > 0 then do
      let normalized ← normalizeAll (flattenChildren rawChildren)
      pure (normalized.filterMap id)
    else
      pure []
  pure (VNode.mk ty (extractKey originProps) (extractAttrs originProps) children)

/-- Total counterpart of `normalizeNode` on array-free children (on which the
two agree; the array branch of the real function throws). -/
def normalizeNodeTotal (c : Child) : Option VNode :=
  if isEmptyValue c then none
  else
    match c with
    | .str s => some (createTextElement s)
    | .num n => some (createTextElement (toString n))
    | .node v => some v
    | _ => none

/-- Normalize every element of an array-free child list and drop the `null`
results — the composition `.map(normalizeNode).filter(c => c !== null)`. -/
def normFilter (cs : List Child) : List VNode :=
  (cs.map normalizeNodeTotal).filterMap id

/-! ## Instances, the DOM model, and the application state -/

/-- The `kind` discriminant of an `Instance` (`NodeTypes` in `constants.ts`). -/
inductive NodeKind where
  | text : NodeKind
  | host : NodeKind
  | fragment : NodeKind
  | component : NodeKind
  deriving Repr, BEq, DecidableEq

/-- The durable record of what is mounted.  `dom` is a handle (an id into the
`DomState`), `children` may contain `none` for slots whose child reconciled
to nothing. -/
inductive Instance where
  | mk (kind : NodeKind) (dom : Option Nat) (node : VNode)
       (children : List (Option Instance)) (key : Option Value)
       (path : String) : Instance

def Instance.kind : Instance → NodeKind
  | .mk k _ _ _ _ _ => k

def Instance.dom : Instance → Option Nat
  | .mk _ d _ _ _ _ => d

def Instance.node : Instance → VNode
  | .mk _ _ n _ _ _ => n

def Instance.children : Instance → List (Option Instance)
  | .mk _ _ _ c _ _ => c

def Instance.key : Instance → Option Value
  | .mk _ _ _ _ k _ => k

def Instance.path : Instance → String
  | .mk _ _ _ _ _ p => p

/-- Payload of one concrete DOM node: a text node's character data, or an
element's tag together with its current attributes, properties, listeners and
inline styles. -/
inductive NodeData where
  | text (payload : String) : NodeData
  | elem (tag : String) (attrs : List (String × Value))
         (props : List (String × Value)) (listeners : List (String × Value))
         (styles : List (String × Prim)) : NodeData
  deriving Repr

/-- The rendering target.  `nodes` maps a handle to its payload,
`childrenMap` maps a parent handle to the ordered handles of its children,
`domProps` is the (platform-fixed) set of names for which `key in dom` holds,
and `nextId` feeds fresh handle allocation. -/
structure DomState where
  nextId : Nat
  nodes : List (Nat × NodeData)
  childrenMap : List (Nat × List Nat)
  domProps : List String
  deriving Repr

/-- Ordered children of a parent handle (absent entry = no children). -/
def DomState.childrenOf (d : DomState) (p : Nat) : List Nat :=
  (alookup p d.childrenMap).getD []

/-- Payload of a handle. -/
def DomState.dataOf (d : DomState) (n : Nat) : Option NodeData :=
  alookup n d.nodes

/-- `n instanceof Text`. -/
def DomState.isText (d : DomState) (n : Nat) : Bool :=
  match d.dataOf n with
  | some (.text _) => true
  | _ => false

/-- `n instanceof HTMLElement` (every element in the model is an
HTMLElement). -/
def DomState.isElem (d : DomState) (n : Nat) : Bool :=
  match d.dataOf n with
  | some (.elem _ _ _ _ _) => true
  | _ => false

/-- One hook slot: a plain state cell, or an effect record
(`{ kind: EFFECT, deps, cleanup, effect }` — callbacks are opaque tokens). -/
inductive Slot where
  | val (v : Value) : Slot
  | eff (deps : Option (List Value)) (cleanup : Option Nat) (effTok : Nat) : Slot
  deriving Repr, BEq, DecidableEq

/-- The whole mutable context (`context.ts` singleton) plus the scheduler
bookkeeping.  `renderRequests`, `renderCount`, `flushScheduled` and `execLog`
are observation counters for the temporal claims: every `enqueueRender()`
call bumps `renderRequests`; every actual render pass bumps `renderCount`;
`flushScheduled` counts pending deferred `flushEffects` turns; `execLog`
records the cleanup/effect callback tokens actually invoked, in order. -/
structure AppState where
  dom : DomState
  hookState : List (String × List Slot)
  cursorMap : List (String × Nat)
  visited : List String
  componentStack : List String
  effectQueue : List (String × Nat)
  rootContainer : Option Nat
  rootNode : Option VNode
  rootInstance : Option Instance
  renderScheduled : Bool
  renderRequests : Nat
  renderCount : Nat
  flushScheduled : Nat
  execLog : List Nat

/-! ## Hook primitives (`core/elements.ts` hooks section) -/

/-- `context.hooks.currentPath`: top of the component stack (modelled from
the spec's Hook Store description; `context.ts` is not among the sources). -/
def AppState.curPath (st : AppState) : String :=
  st.componentStack.headD ""

/-- `context.hooks.currentCursor`: this path's cursor, defaulting to 0. -/
def AppState.curCursor (st : AppState) : Nat :=
  (alookup st.curPath st.cursorMap).getD 0

/-- `context.hooks.currentHooks`: this path's slot array, defaulting to `[]`. -/
def AppState.curHooks (st : AppState) : List Slot :=
  (alookup st.curPath st.hookState).getD []

/-- `hooks[cursor] = x` — JS index assignment; under the cursor discipline
the index is always ≤ the array length, so this is set-or-append. -/
def setSlot (l : List Slot) (i : Nat) (x : Slot) : List Slot :=
  if i < l.length then l.set i x else l ++ [x]

/-- `hooks[cursor] === undefined`: the slot is beyond the array or holds the
value `undefined`. -/
def slotIsUndefined : Option Slot → Bool
  | none => true
  | some (.val .undef) => true
  | _ => false

/-- JS truthiness of a slot read (`!prevHook`): a missing slot is
`undefined` (falsy), an effect record is an object (truthy), a raw stored
value has its own truthiness. -/
def slotTruthy : Option Slot → Bool
  | none => false
  | some (.val v) => v.truthy
  | some (.eff _ _ _) => true

/-- `prevHook.deps` (`undefined` — modelled `none` — on a non-effect slot). -/
def slotDeps : Option Slot → Option (List Value)
  | some (.eff d _ _) => d
  | _ => none

/-- `prevHook?.cleanup || null`. -/
def slotCleanup : Option Slot → Option Nat
  | some (.eff _ c _) => c
  | _ => none

/-- `shallowEquals` (`utils.ts`) specialized to two dependency arrays: the
`Object.is(a, b)` fast path is reference equality, which on arrays implies
element-wise equality, so the net observable is length equality plus
element-wise `Object.is`. -/
def shallowEqualsL (a b : List Value) : Bool :=
  a.length == b.length && (a.zip b).all (fun p => objectIs p.1 p.2)

/-- The argument of a state updater: a direct value or a function of the
previous value. -/
inductive NextVal where
  | val (v : Value) : NextVal
  | fn (f : Value → Value) : NextVal

/-- The argument of `useState`: an initial value or a producer function. -/
inductive InitVal where
  | val (v : Value) : InitVal
  | fn (f : Unit → Value) : InitVal

def InitVal.eval : InitVal → Value
  | .val v => v
  | .fn f => f ()

/-- Modelled from the spec: `enqueueRender = withEnqueue(render)` — the
Render-Scheduler wrapper `withEnqueue` lives in `utils.ts`, which is not
among the sources.  Per spec §4.5 it may be called any number of times in a
turn and guarantees at most one actual render per turn, deferred to a
microtask boundary: modelled as bumping the request counter and setting the
(idempotent) `renderScheduled` flag; `endTurn` later performs the single
deferred render. -/
def enqueueRender (st : AppState) : AppState :=
  { st with renderRequests := st.renderRequests + 1, renderScheduled := true }

/-- The state updater closure created by `useState`, with its captured
`(path, cursor)` made explicit. -/
def setState (path : String) (cursor : Nat) (nv : NextVal) (st : AppState) :
    AppState :=
  match alookup path st.hookState with
  | none => st
  | some hooks =>
    let currentValue : Value :=
      match hooks.get? cursor with
      | some (.val v) => v
      | _ => .undef
    let newValue : Value :=
      match nv with
      | .val v => v
      | .fn f => f currentValue
    if objectIs currentValue newValue then st
    else
      enqueueRender
        { st with hookState := aset path (setSlot hooks cursor (.val newValue))
                                 st.hookState }

/-- `useState` body at render time: initialize the slot on first occupancy,
return the current value plus the captured `(path, cursor)` of the updater
(`setState`), and advance the cursor. -/
def useState (init : InitVal) (st : AppState) :
    Value × String × Nat × AppState :=
  let path := st.curPath
  let cursor := st.curCursor
  let hooks := st.curHooks
  let (hooks, st) :=
    if slotIsUndefined (hooks.get? cursor) then
      let hooks' := setSlot hooks cursor (.val init.eval)
      (hooks', { st with hookState := aset path hooks' st.hookState })
    else (hooks, st)
  let value : Value :=
    match hooks.get? cursor with
    | some (.val v) => v
    | _ => .undef
  (value, path, cursor,
    { st with cursorMap := aset path (cursor + 1) st.cursorMap })

/-- The `shouldRunEffect` cascade of `useEffect`: `!prevHook`, `!deps`,
`!prevHook.deps`, `!shallowEquals(prevHook.deps, deps)`. -/
def shouldRunB (prev : Option Slot) (deps : Option (List Value)) : Bool :=
  if !slotTruthy prev then true
  else if deps.isNone then true
  else if (slotDeps prev).isNone then true
  else !shallowEqualsL ((slotDeps prev).getD []) (deps.getD [])

/-- `useEffect` body: decide whether to (re)queue the effect, store the new
effect record (keeping the previous cleanup), and advance the cursor. -/
def useEffect (effTok : Nat) (deps : Option (List Value)) (st : AppState) :
    AppState :=
  let path := st.curPath
  let cursor := st.curCursor
  let hooks := st.curHooks
  let prevHook := hooks[cursor]?
  let shouldRun : Bool := shouldRunB prevHook deps
  let newHook : Slot := .eff deps (slotCleanup prevHook) effTok
  let st := { st with hookState := aset path (setSlot hooks cursor newHook)
                        st.hookState }
  let st :=
    if shouldRun then { st with effectQueue := st.effectQueue ++ [(path, cursor)] }
    else st
  { st with cursorMap := aset path (cursor + 1) st.cursorMap }

/-- Cleanup tokens of a slot array, in slot order. -/
def slotCleanups (hooks : List Slot) : List Nat :=
  hooks.filterMap fun h =>
    match h with
    | .eff _ (some c) _ => some c
    | _ => none

/-- `cleanupUnusedHooks`: run (log) the effect cleanups of every path absent
from `visited`, then delete those paths' state entries. -/
def cleanupUnusedHooks (st : AppState) : AppState :=
  let stale := st.hookState.filter fun pv => !st.visited.contains pv.1
  { st with
      execLog := st.execLog ++ stale.flatMap (fun pv => slotCleanups pv.2),
      hookState := st.hookState.filter fun pv => st.visited.contains pv.1 }

/-- `flushEffects`: drain the queue once; for each queued `(path, cursor)`
whose slot still exists and is still an effect slot, run the stored cleanup
(if any), run the effect, and store the effect's returned cleanup.  `effRet`
is the environment telling what cleanup token each effect callback returns. -/
def flushEffects (effRet : Nat → Option Nat) (st : AppState) : AppState :=
  let q := st.effectQueue
  let st := { st with effectQueue := [] }
  q.foldl
    (fun st pc =>
      match alookup pc.1 st.hookState with
      | none => st
      | some hooks =>
        match hooks.get? pc.2 with
        | some (.eff deps cl tok) =>
            let st :=
              match cl with
              | some c => { st with execLog := st.execLog ++ [c] }
              | none => st
            let st := { st with execLog := st.execLog ++ [tok] }
            { st with
                hookState := aset pc.1
                  (setSlot hooks pc.2 (.eff deps (effRet tok) tok)) st.hookState }
        | _ => st)
    st

/-- The queueing condition of C5, written from the claim's words: first
occupancy, or no dependency list passed, or previously no dependency list
stored while one is passed now, or the lists differ under shallow
element-wise comparison. -/
def queuedSpec (prev : Option Slot) (deps : Option (List Value)) : Prop :=
  prev = none
  ∨ deps = none
  ∨ (deps ≠ none ∧ slotDeps prev = none)
  ∨ (∃ ds pds, deps = some ds ∧ slotDeps prev = some pds ∧
      shallowEqualsL pds ds = false)

/-- The previous slot `useEffect` would see in state `st`. -/
def AppState.prevSlot (st : AppState) : Option Slot :=
  st.curHooks[st.curCursor]?

/-- The next value an updater computes from the current slot value
(`typeof nextValue === "function" ? nextValue(currentValue) : nextValue`). -/
def nextOf (nv : NextVal) (cur : Value) : Value :=
  match nv with
  | .val v => v
  | .fn f => f cur

/-! ## Host adapter (`core/dom.ts`) -/

/-- One concrete mutation issued against a target handle.  Removal of a
generic attribute is `removeAttr`; "resetting" a DOM property writes
`undefined` into it (`setProp name .undef`), and clearing one inline style
key writes the empty string (`setStyle k (.str "")`), exactly as the code
does. -/
inductive Mutation where
  | addListener (event : String) (handler : Value) : Mutation
  | removeListener (event : String) (handler : Value) : Mutation
  | setAttr (name : String) (v : Value) : Mutation
  | removeAttr (name : String) : Mutation
  | setProp (name : String) (v : Value) : Mutation
  | setStyle (k : String) (v : Prim) : Mutation
  deriving Repr, BEq, DecidableEq

/-- The style entries of an object value (empty for non-objects). -/
def Value.styleFields : Value → List (String × Prim)
  | .obj _ f => f
  | _ => []

/-- The mutation trace of `setDomProps(dom, props)` (mount-time application
of every non-`children` prop, classified by key). -/
def setDomPropsMuts (domProps : List String) (props : List (String × Value)) :
    List Mutation :=
  props.flatMap fun kv =>
    let key := kv.1
    let value := kv.2
    if key = "children" then []
    else if key.startsWith "on" then
      [.addListener ((key.drop 2).toLower) value]
    else if key = "className" then [.setAttr "class" value]
    else if key = "style" ∧ value.isObjectType then
      value.styleFields.map fun sf => .setStyle sf.1 sf.2
    else if key ∈ domProps then [.setProp key value]
    else [.setAttr key value]

/-- Removal-phase handling of one `prevProps` entry: a non-`children` key
absent from `nextProps` has the inverse of its apply rule run. -/
def removeEntryMuts (domProps : List String) (next : List (String × Value))
    (kv : String × Value) : List Mutation :=
  if kv.1 = "children" then []
  else if (alookup kv.1 next).isSome then []
  else if kv.1.startsWith "on" then
    [.removeListener ((kv.1.drop 2).toLower) kv.2]
  else if kv.1 = "className" then [.removeAttr "class"]
  else if kv.1 = "style" ∧ kv.2.isObjectType then
    kv.2.styleFields.map fun sf => .setStyle sf.1 (.str "")
  else if kv.1 ∈ domProps then [.setProp kv.1 .undef]
  else [.removeAttr kv.1]

/-- The mutation trace of the removal phase of `updateDomProps`. -/
def removePhaseMuts (domProps : List String)
    (prev next : List (String × Value)) : List Mutation :=
  prev.flatMap (removeEntryMuts domProps next)

/-- Set-phase handling of one `nextProps` entry: a non-`children` key whose
value changed (identity comparison against `prevProps[key]`) is (re)applied;
identity-equal values are skipped entirely. -/
def setEntryMuts (domProps : List String) (prev : List (String × Value))
    (kv : String × Value) : List Mutation :=
  if kv.1 = "children" then []
  else
    let pv := (alookup kv.1 prev).getD .undef
    if objectIs pv kv.2 then []
    else if kv.1.startsWith "on" then
      (if pv.truthy then [.removeListener ((kv.1.drop 2).toLower) pv] else [])
        ++ (if kv.2.truthy then [.addListener ((kv.1.drop 2).toLower) kv.2] else [])
    else if kv.1 = "className" then [.setAttr "class" kv.2]
    else if kv.1 = "style" ∧ kv.2.isObjectType then
      ((pv.styleFields.filter fun sf => (alookup sf.1 kv.2.styleFields).isNone).map
          fun sf => Mutation.setStyle sf.1 (.str ""))
        ++ (kv.2.styleFields.map fun sf => Mutation.setStyle sf.1 sf.2)
    else if kv.1 ∈ domProps then [.setProp kv.1 kv.2]
    else [.setAttr kv.1 kv.2]

/-- The mutation trace of the set phase of `updateDomProps`. -/
def setPhaseMuts (domProps : List String)
    (prev next : List (String × Value)) : List Mutation :=
  next.flatMap (setEntryMuts domProps prev)

/-- Remove every entry with the given key from a prop object (used only to
STATE the "identity-equal keys are skipped entirely" property). -/
def eraseKey {α : Type} (k : String) : List (String × α) → List (String × α)
  | [] => []
  | kv :: rest => if kv.1 = k then eraseKey k rest else kv :: eraseKey k rest

/-- The full mutation trace of `updateDomProps(dom, prevProps, nextProps)`:
the removal loop runs first, then the set loop. -/
def updateDomPropsMuts (domProps : List String)
    (prev next : List (String × Value)) : List Mutation :=
  removePhaseMuts domProps prev next ++ setPhaseMuts domProps prev next

/-- Remove the first occurrence of a pair from a listener list
(`removeEventListener` detaches one matching registration). -/
def removeFirstListener (ev : String) (h : Value) :
    List (String × Value) → List (String × Value)
  | [] => []
  | l :: rest =>
      if l.1 = ev ∧ l.2 = h then rest else l :: removeFirstListener ev h rest

/-- Apply one mutation to the payload of an element handle. -/
def applyMutation (d : DomState) (id : Nat) (m : Mutation) : DomState :=
  match alookup id d.nodes with
  | some (.elem tag attrs props listeners styles) =>
    let nd : NodeData :=
      match m with
      | .addListener ev h => .elem tag attrs props (listeners ++ [(ev, h)]) styles
      | .removeListener ev h =>
          .elem tag attrs props (removeFirstListener ev h listeners) styles
      | .setAttr n v => .elem tag (aset n v attrs) props listeners styles
      | .removeAttr n =>
          .elem tag (attrs.filter fun kv => kv.1 ≠ n) props listeners styles
      | .setProp n v => .elem tag attrs (aset n v props) listeners styles
      | .setStyle k v => .elem tag attrs props listeners (aset k v styles)
    { d with nodes := aset id nd d.nodes }
  | _ => d

/-- Apply a mutation trace to one handle. -/
def applyMuts (d : DomState) (id : Nat) (ms : List Mutation) : DomState :=
  ms.foldl (fun d m => applyMutation d id m) d

/-- `setDomProps` as a state transformer (the `instanceof Element` guard
logs and returns on a non-element handle). -/
def setDomProps (d : DomState) (id : Nat)
    (props : List (String × Value)) : DomState :=
  if d.isElem id then applyMuts d id (setDomPropsMuts d.domProps props) else d

/-- `updateDomProps` as a state transformer. -/
def updateDomProps (d : DomState) (id : Nat)
    (prev next : List (String × Value)) : DomState :=
  if d.isElem id then applyMuts d id (updateDomPropsMuts d.domProps prev next)
  else d

mutual

/-- `getDomNodes`: the owned target handles of an instance — Fragments and
Components recurse into children, Text/Host instances own their single
handle. -/
def getDomNodes : Instance → List Nat
  | .mk kind dom _ children _ _ =>
    if kind = .fragment ∨ kind = .component then getDomNodesL children
    else
      match dom with
      | some d => [d]
      | none => []

def getDomNodesL : List (Option Instance) → List Nat
  | [] => []
  | none :: rest => getDomNodesL rest
  | some c :: rest => getDomNodes c ++ getDomNodesL rest

end

mutual

/-- `getFirstDom`: an instance's own handle, else the first handle found in
its children, left to right. -/
def getFirstDom : Option Instance → Option Nat
  | none => none
  | some (.mk _ dom _ children _ _) =>
    match dom with
    | some d => some d
    | none => getFirstDomL children

def getFirstDomL : List (Option Instance) → Option Nat
  | [] => none
  | c :: rest =>
    match getFirstDom c with
    | some d => some d
    | none => getFirstDomL rest

end

/-- `getFirstDomFromChildren`. -/
def getFirstDomFromChildren (children : List (Option Instance)) : Option Nat :=
  getFirstDomL children

/-- `node.parentNode.removeChild(node)`: detach a handle from whatever
parent currently holds it. -/
def removeFromParents (d : DomState) (n : Nat) : DomState :=
  { d with childrenMap :=
      d.childrenMap.map (fun pc => (pc.1, pc.2.filter (fun x => x ≠ n))) }

/-- `parent.appendChild(n)` (moves: first detaches `n`, then appends). -/
def appendChild (d : DomState) (parent n : Nat) : DomState :=
  let d := removeFromParents d n
  { d with childrenMap := aset parent (d.childrenOf parent ++ [n]) d.childrenMap }

/-- `parent.insertBefore(n, anchor)`; `reconcile` only ever passes a null
anchor, so the anchor-missing corner (JS throws) is modelled as append. -/
def insertBeforeNode (d : DomState) (parent n anchor : Nat) : DomState :=
  let d := removeFromParents d n
  let cs := d.childrenOf parent
  let cs' := (cs.takeWhile fun x => x ≠ anchor) ++ [n] ++
    (cs.dropWhile fun x => x ≠ anchor)
  { d with childrenMap := aset parent cs' d.childrenMap }

/-- Allocate a fresh handle with the given payload. -/
def DomState.alloc (d : DomState) (nd : NodeData) : Nat × DomState :=
  (d.nextId,
   { d with nextId := d.nextId + 1, nodes := d.nodes ++ [(d.nextId, nd)] })

/-- `insertInstance(parentDom, instance, anchor)`. -/
def insertInstance (d : DomState) (parent : Nat) (inst? : Option Instance)
    (anchor : Option Nat) : DomState :=
  match inst? with
  | none => d
  | some inst =>
    let ns := getDomNodes inst
    if ns = [] then d
    else
      match anchor with
      | some a => ns.foldl (fun d n => insertBeforeNode d parent n a) d
      | none => ns.foldl (fun d n => appendChild d parent n) d

/-- `removeInstance(parentDom, instance)`: detach every owned handle from
its actual parent (the code explicitly ignores whether that parent is
`parentDom`). -/
def removeInstance (d : DomState) (_parent : Nat) (inst? : Option Instance) :
    DomState :=
  match inst? with
  | none => d
  | some inst => (getDomNodes inst).foldl removeFromParents d

/-- `instance.dom.textContent = s` on a text handle. -/
def setTextContent (d : DomState) (id : Nat) (s : String) : DomState :=
  { d with nodes := aset id (.text s) d.nodes }

/-! ## The reconciler (`core/reconciler.ts`) -/

/-- `createChildPath(parentPath, key, index, nodeType, siblings)`: a keyed
segment, a component-name-plus-occurrence segment, or a positional-index
segment. -/
def createChildPath (parentPath : String) (key : Option Value) (index : Nat)
    (nodeType : VType) (siblings : List VNode) : String :=
  match key with
  | some k => parentPath ++ ".k" ++ k.jsString
  | none =>
    match nodeType with
    | .comp _ name =>
        let componentName := if name = "" then "Component" else name
        let typeCount :=
          ((siblings.take index).filter fun s => decide (s.ty = nodeType)).length
        parentPath ++ ".c" ++ componentName ++ "_" ++ toString typeCount
    | _ => parentPath ++ ".i" ++ toString index

/-- The component environment: a pure function from a component's identity
and its props (`attrs` plus `children`) to the single child VNode (or null)
its body returns.  Hook calls inside component bodies are modelled by the
standalone hook primitives; the claims under verification never need both at
once. -/
def CompEnv : Type := Nat → List (String × Value) → List VNode → Option VNode

/-- Update only the `dom` component of the application state. -/
def AppState.mapDom (st : AppState) (f : DomState → DomState) : AppState :=
  { st with dom := f st.dom }

/-- The part of the global context the reconciler reads and writes: the
rendering target plus the per-pass hook bookkeeping its component branches
touch (`componentStack`, `cursor`, `visited`).  With components modelled as
pure functions the reconciler touches nothing else, so threading only this
sub-state makes that a property of the embedding's types. -/
structure RecState where
  dom : DomState
  cursorMap : List (String × Nat)
  visited : List String
  componentStack : List String

/-- The child path of a component's single rendered child:
`childNode ? createChildPath(path, childNode.key, 0, childNode.type, [childNode]) : path`. -/
def compChildPath (path : String) (childNode : Option VNode) : String :=
  match childNode with
  | some c => createChildPath path c.key 0 c.ty [c]
  | none => path

/-- `childInstance ? [childInstance] : []`. -/
def singletonChildren : Option Instance → List (Option Instance)
  | some ci => [some ci]
  | none => []

/-- `props.nodeValue || ""` stringified for `createTextNode`/`textContent`. -/
def nodeValueOf (node : VNode) : String :=
  match alookup "nodeValue" node.attrs with
  | some v => if v.truthy then v.jsString else ""
  | none => ""

/-- The trailing-children removal loop shared by the Fragment and Host
update cases: `for (i = newLen; i < oldLen; i++) if (oldChildren[i])
removeInstance(parent, oldChildren[i])`. -/
def removeTrailing (parent : Nat) (olds : List (Option Instance))
    (fromIdx : Nat) (d : DomState) : DomState :=
  (olds.drop fromIdx).foldl
    (fun d c? =>
      match c? with
      | some c => removeInstance d parent (some c)
      | none => d) d

/-- The `childNodes.forEach((child, index) => ...)` loops of `reconcile`:
each child is reconciled against `oldChildren[index] || null` at the path
`createChildPath(path, child.key, index, child.type, childNodes)`.  `rec` is
the recursive entry point (mount passes `olds = []`, so every pairing is
against null there, exactly as the source's explicit `null`). -/
def reconcileChildrenF
    (rec : Nat → Option Instance → Option VNode → String → RecState →
      Option Instance × RecState)
    (parent : Nat) (olds : List (Option Instance)) (siblings : List VNode) :
    List VNode → Nat → String → RecState → List (Option Instance) × RecState
  | [], _, _, st => ([], st)
  | child :: rest, idx, path, st =>
      let childPath := createChildPath path child.key idx child.ty siblings
      let oldChild := (olds.get? idx).getD none
      let r1 := rec parent oldChild (some child) childPath st
      let r2 :=
        reconcileChildrenF rec parent olds siblings rest (idx + 1) path r1.2
      (r1.1 :: r2.1, r2.2)

/-- `reconcile(parentDom, instance, node, path)`.  The four cases of the
source in order: unmount, mount (by VNode kind), type/key mismatch
(unmount then mount fresh), update (by VNode kind).  `fuel` bounds recursion
through component output (each component invocation consumes one unit; the
source would instead grow the JS call stack without bound); all other
recursion is through it as well, so `fuel` must exceed the tree depth for a
faithful run. -/
def reconcile (env : CompEnv) :
    Nat → Nat → Option Instance → Option VNode → String → RecState →
      Option Instance × RecState
  | 0, _, _, _, _, st => (none, st)
  | fuel + 1, parentDom, inst?, node?, path, st =>
    match node? with
    | none =>
        match inst? with
        | some inst =>
            (none, { st with dom := removeInstance st.dom parentDom (some inst) })
        | none => (none, st)
    | some node =>
      match inst? with
      | none =>
        match node.ty with
        | .text =>
            let idd := st.dom.alloc (.text (nodeValueOf node))
            let newInst := Instance.mk .text (some idd.1) node [] node.key path
            (some newInst,
             { st with dom := insertInstance idd.2 parentDom (some newInst) none })
        | .fragment =>
            let r :=
              reconcileChildrenF (reconcile env fuel)
                parentDom [] node.children node.children 0 path st
            (some (Instance.mk .fragment (getFirstDomFromChildren r.1) node r.1
                node.key path), r.2)
        | .comp cid _ =>
            let st1 := { st with
              componentStack := path :: st.componentStack
              cursorMap := aset path 0 st.cursorMap
              visited := st.visited.insert path }
            let childNode := env cid node.attrs node.children
            let childPath := compChildPath path childNode
            let r := reconcile env fuel parentDom none childNode childPath st1
            let newInst := Instance.mk .component (getFirstDom r.1) node
              (singletonChildren r.1) node.key path
            (some newInst, { r.2 with componentStack := r.2.componentStack.tail })
        | .host tag =>
            let idd := st.dom.alloc (.elem tag [] [] [] [])
            let r :=
              reconcileChildrenF (reconcile env fuel)
                idd.1 [] node.children node.children 0 path
                { st with dom := setDomProps idd.2 idd.1 node.attrs }
            let newInst := Instance.mk .host (some idd.1) node r.1 node.key path
            (some newInst,
             { r.2 with dom := insertInstance r.2.dom parentDom (some newInst) none })
      | some inst =>
        if inst.node.ty ≠ node.ty ∨ inst.key ≠ node.key then
          let st1 := { st with dom := removeInstance st.dom parentDom (some inst) }
          reconcile env fuel parentDom none (some node) path st1
        else
          match node.ty with
          | .text =>
              let d :=
                match inst.dom with
                | some i =>
                    if st.dom.isText i then
                      setTextContent st.dom i (nodeValueOf node)
                    else st.dom
                | none => st.dom
              (some (Instance.mk inst.kind inst.dom node inst.children inst.key
                  inst.path), { st with dom := d })
          | .fragment =>
              let r :=
                reconcileChildrenF (reconcile env fuel)
                  parentDom inst.children node.children node.children 0 path st
              let d2 := removeTrailing parentDom inst.children
                node.children.length r.2.dom
              (some (Instance.mk inst.kind (getFirstDomFromChildren r.1) node r.1
                  inst.key inst.path), { r.2 with dom := d2 })
          | .comp cid _ =>
              let prevCursor := (alookup path st.cursorMap).getD 0
              let st1 := { st with
                componentStack := path :: st.componentStack
                cursorMap := aset path 0 st.cursorMap
                visited := st.visited.insert path }
              let childNode := env cid node.attrs node.children
              let oldChild := (inst.children.get? 0).getD none
              let childPath := compChildPath path childNode
              let r := reconcile env fuel parentDom oldChild childNode childPath st1
              let newInst := Instance.mk inst.kind (getFirstDom r.1) node
                (singletonChildren r.1) inst.key inst.path
              (some newInst, { r.2 with
                componentStack := r.2.componentStack.tail
                cursorMap := aset path prevCursor r.2.cursorMap })
          | .host _ =>
              match inst.dom with
              | some id =>
                  if st.dom.isElem id then
                    let d := updateDomProps st.dom id inst.node.attrs node.attrs
                    let r :=
                      reconcileChildrenF (reconcile env fuel)
                        id inst.children node.children node.children 0 path
                        { st with dom := d }
                    let d2 := removeTrailing id inst.children
                      node.children.length r.2.dom
                    (some (Instance.mk inst.kind inst.dom node r.1 inst.key
                        inst.path), { r.2 with dom := d2 })
                  else (some inst, st)
              | none => (some inst, st)

/-- The result of the Fragment-update branch of `reconcile`, spelled out:
children reconciled pairwise by index, trailing old children removed, and
the instance updated with the new children, the recomputed first-descendant
handle, and the new VNode. -/
def fragUpdateResult (env : CompEnv) (fuel parent : Nat) (inst : Instance)
    (node : VNode) (path : String) (s : RecState) :
    Option Instance × RecState :=
  let r := reconcileChildrenF (reconcile env fuel) parent inst.children
    node.children node.children 0 path s
  let d2 := removeTrailing parent inst.children node.children.length r.2.dom
  (some (Instance.mk inst.kind (getFirstDomFromChildren r.1) node r.1
      inst.key inst.path), { r.2 with dom := d2 })

/-- The result of the Host-update branch of `reconcile` on a valid element
handle `id`: prop diff applied, children reconciled pairwise by index into
`id`, trailing old children removed, instance updated in place (its handle
kept). -/
def hostUpdateResult (env : CompEnv) (fuel id : Nat) (inst : Instance)
    (node : VNode) (path : String) (s : RecState) :
    Option Instance × RecState :=
  let d := updateDomProps s.dom id inst.node.attrs node.attrs
  let r := reconcileChildrenF (reconcile env fuel) id inst.children
    node.children node.children 0 path { s with dom := d }
  let d2 := removeTrailing id inst.children node.children.length r.2.dom
  (some (Instance.mk inst.kind inst.dom node r.1 inst.key inst.path),
   { r.2 with dom := d2 })

/-! ## Render scheduler and root controller -/

/-- `render()` (`core/render.ts`): clear the per-pass hook bookkeeping
(cursor / visited / component stack — spec §4.5), reconcile from the root,
store the new instance, garbage-collect unused hooks, and defer an effect
flush.  `renderCount` instruments the number of actual render passes. -/
def render (env : CompEnv) (fuel : Nat) (st : AppState) : AppState :=
  match st.rootContainer, st.rootNode with
  | some container, some node =>
      let rs : RecState :=
        { dom := st.dom, cursorMap := [], visited := [], componentStack := [] }
      let r := reconcile env fuel container st.rootInstance (some node) "" rs
      let st3 := { st with
        dom := r.2.dom
        cursorMap := r.2.cursorMap
        visited := r.2.visited
        componentStack := r.2.componentStack
        rootInstance := r.1 }
      let st4 := cleanupUnusedHooks st3
      { st4 with
          flushScheduled := st4.flushScheduled + 1
          renderCount := st4.renderCount + 1 }
  | _, _ => st

/-- Modelled from the spec: the microtask-equivalent turn boundary (§4.5,
§5).  If a render was scheduled this turn it runs exactly once; the effect
flush stays pending for a later turn. -/
def endTurn (env : CompEnv) (fuel : Nat) (st : AppState) : AppState :=
  if st.renderScheduled then render env fuel { st with renderScheduled := false }
  else st

/-- The teardown of a previously mounted root:
`if (prevContainer && prevInstance) removeInstance(prevContainer, prevInstance)`. -/
def teardownPrev (st : AppState) : AppState :=
  match st.rootContainer, st.rootInstance with
  | some pc, some pi => st.mapDom fun d => removeInstance d pc (some pi)
  | _, _ => st

/-- `setup(rootNode, container)`: validate, tear down the previous root,
empty the container, hard-reset every piece of hook/effect bookkeeping
(including the whole hook state), render synchronously, then defer an effect
flush.  (`context.root.reset` and `context.hooks.clear` live in the missing
`context.ts` and are modelled from the spec: the former installs the new
container/node pair with no current instance, the latter clears the per-pass
cursor/visited/stack bookkeeping.) -/
def setup (env : CompEnv) (fuel : Nat) (rootNode : Option VNode)
    (container : Nat) (st : AppState) : Except String AppState :=
  if ¬ st.dom.isElem container ∨ rootNode.isNone then .error "컨테이너가 없습니다"
  else
    let st1 := teardownPrev st
    let st2 := cleanupUnusedHooks st1
    let st3 := st2.mapDom fun d =>
      { d with childrenMap := aset container [] d.childrenMap }
    let st4 := { st3 with
      rootContainer := some container
      rootNode := rootNode
      rootInstance := none
      cursorMap := []
      visited := []
      componentStack := []
      hookState := []
      effectQueue := [] }
    let st5 := render env fuel st4
    .ok { st5 with flushScheduled := st5.flushScheduled + 1 }

/-- Relation between a DOM state and a later one produced by mount-only
work: the id supply only grows, the payload of every pre-existing handle is
untouched, and any handle found under a parent either was already there or
is freshly allocated. -/
def DomFresh (d d' : DomState) : Prop :=
  d.nextId ≤ d'.nextId
  ∧ (∀ id, id < d.nextId → d'.dataOf id = d.dataOf id)
  ∧ (∀ q m, m ∈ d'.childrenOf q → m ∈ d.childrenOf q ∨ d.nextId ≤ m)

/-- The owned handles of an optional instance (`[]` for null). -/
def domNodesOf : Option Instance → List Nat
  | some i => getDomNodes i
  | none => []

/-- A component environment rendering nothing (components return null). -/
def exEnv : CompEnv := fun _ _ _ => none

/-- A trivial host root VNode `<div/>`. -/
def exRootNode : VNode := .mk (.host "div") none [] []

/-- A `<span/>` VNode. -/
def exSpanNode : VNode := .mk (.host "span") none [] []

/-- A mounted `<div/>` host instance with handle 1. -/
def exDivInst : Instance :=
  .mk .host (some 1) (.mk (.host "div") none [] []) [] none ""

/-- A reconciler state with container handle 0 holding the mounted div 1. -/
def exRec : RecState :=
  { dom := ⟨2, [(0, .elem "body" [] [] [] []), (1, .elem "div" [] [] [] [])],
      [(0, [1])], []⟩
    cursorMap := []
    visited := []
    componentStack := [] }

/-- A mounted text instance (handle 1, payload "x") at path ".i0". -/
def exTextInst : Instance :=
  .mk .text (some 1) (.mk .text none [("nodeValue", .str "x")] []) [] none ".i0"

/-- A mounted Fragment instance holding the single text child. -/
def exFragInst : Instance :=
  .mk .fragment (some 1)
    (.mk .fragment none [] [.mk .text none [("nodeValue", .str "x")] []])
    [some exTextInst] none ""

/-- The new Fragment VNode with no children (shrinking update). -/
def exFragNode2 : VNode := .mk .fragment none [] []

/-- A reconciler state with body handle 0 holding the text handle 1. -/
def exRec2 : RecState :=
  { dom := ⟨2, [(0, .elem "body" [] [] [] []), (1, .text "x")], [(0, [1])], []⟩
    cursorMap := []
    visited := []
    componentStack := [] }

/-- The updater function `(prev) => prev + 1` on integer state. -/
def incFn : Value → Value
  | .int n => .int (n + 1)
  | v => v

/-- An empty rendering target. -/
def exDom : DomState := ⟨0, [], [], []⟩

/-- `exState0` with a mounted root: container handle `0` (a `div` element)
and root VNode `exRootNode`. -/
def exStateRoot : AppState :=
  { dom := ⟨1, [(0, .elem "div" [] [] [] [])], [], []⟩
    hookState := [("p", [.val (.int 0)])]
    cursorMap := []
    visited := []
    componentStack := []
    effectQueue := []
    rootContainer := some 0
    rootNode := some exRootNode
    rootInstance := none
    renderScheduled := false
    renderRequests := 0
    renderCount := 0
    flushScheduled := 0
    execLog := [] }

/-- A small concrete application state: one hook path `"p"` holding a single
state cell with value `0`. -/
def exState0 : AppState :=
  { dom := exDom
    hookState := [("p", [.val (.int 0)])]
    cursorMap := []
    visited := []
    componentStack := []
    effectQueue := []
    rootContainer := none
    rootNode := none
    rootInstance := none
    renderScheduled := false
    renderRequests := 0
    renderCount := 0
    flushScheduled := 0
    execLog := [] }

/-- A state ready for a `useState` call at path `"p"` with no stored hooks. -/
def exUseSt : AppState :=
  { exState0 with hookState := [], componentStack := ["p"] }

/-- The application state `setup` produces on `exStateRoot`. -/
def exSetupOut : AppState :=
  (setup exEnv 2 (some exRootNode) 0 exStateRoot).toOption.getD exStateRoot

end MiniReact

namespace MiniReact

/-! ### Basic facts about normalization -/

theorem flattenChildren_no_arr (cs : List Child) :
    ∀ c ∈ flattenChildren cs, ∀ ds, c ≠ .arr ds := by
  induction cs using flattenChildren.induct with
  | case1 => intro c hc; simp [flattenChildren] at hc
  | case2 cs rest ih1 ih2 =>
      intro c hc ds
      simp only [flattenChildren, List.mem_append] at hc
      rcases hc with h | h
      · exact ih1 c h ds
      · exact ih2 c h ds
  | case3 c0 rest hne ih =>
      intro c hc ds
      simp only [flattenChildren, List.mem_cons] at hc
      rcases hc with rfl | h
      · intro hEq; subst hEq; exact hne ds rfl
      · exact ih c h ds

theorem normalizeNode_ok_of_not_arr (c : Child) (h : ∀ ds, c ≠ .arr ds) :
    ∃ v, normalizeNode c = .ok v := by
  cases c with
  | arr ds => exact absurd rfl (h ds)
  | null => exact ⟨none, rfl⟩
  | undef => exact ⟨none, rfl⟩
  | bool b => exact ⟨none, rfl⟩
  | str s => exact ⟨some (createTextElement s), rfl⟩
  | num n => exact ⟨some (createTextElement (toString n)), rfl⟩
  | node v => exact ⟨some v, rfl⟩

theorem normalizeAll_ok_of_no_arr (cs : List Child)
    (h : ∀ c ∈ cs, ∀ ds, c ≠ .arr ds) :
    ∃ vs, normalizeAll cs = .ok vs := by
  induction cs with
  | nil => exact ⟨[], rfl⟩
  | cons c rest ih =>
      obtain ⟨v, hv⟩ := normalizeNode_ok_of_not_arr c (h c (by simp))
      obtain ⟨vs, hvs⟩ := ih (fun c' hc' => h c' (by simp [hc']))
      exact ⟨v :: vs, by simp [normalizeAll, hv, hvs, Bind.bind, Except.bind,
        Pure.pure, Except.pure]⟩

theorem normalizeNode_eq_total (c : Child) (h : ∀ ds, c ≠ .arr ds) :
    normalizeNode c = .ok (normalizeNodeTotal c) := by
  cases c with
  | arr ds => exact absurd rfl (h ds)
  | null => rfl
  | undef => rfl
  | bool b => rfl
  | str s => rfl
  | num n => rfl
  | node v => rfl

theorem normalizeAll_eq_total (cs : List Child)
    (h : ∀ c ∈ cs, ∀ ds, c ≠ .arr ds) :
    normalizeAll cs = .ok (cs.map normalizeNodeTotal) := by
  induction cs with
  | nil => rfl
  | cons c rest ih =>
      have h1 := normalizeNode_eq_total c (h c (by simp))
      have h2 := ih (fun c' hc' => h c' (by simp [hc']))
      simp [normalizeAll, h1, h2, Bind.bind, Except.bind, Pure.pure, Except.pure]

/-- `createElement` never throws: flattening removes every nested array
before `normalizeNode` runs, and the array branch is the only failing one. -/
theorem createElement_total (ty : VType) (op : Option (List (String × Value)))
    (raw : List Child) : ∃ v, createElement ty op raw = .ok v := by
  by_cases hlen : raw.length > 0
  · obtain ⟨vs, hvs⟩ :=
      normalizeAll_ok_of_no_arr (flattenChildren raw) (flattenChildren_no_arr raw)
    refine ⟨VNode.mk ty (extractKey op) (extractAttrs op) (vs.filterMap id), ?_⟩
    simp [createElement, hlen, hvs, Bind.bind, Except.bind, Pure.pure, Except.pure]
  · refine ⟨VNode.mk ty (extractKey op) (extractAttrs op) [], ?_⟩
    simp [createElement, hlen, Bind.bind, Except.bind, Pure.pure, Except.pure]

theorem createElement_eq_normFilter (ty : VType)
    (op : Option (List (String × Value))) (raw : List Child) :
    createElement ty op raw =
      .ok (VNode.mk ty (extractKey op) (extractAttrs op)
            (normFilter (flattenChildren raw))) := by
  by_cases hlen : raw.length > 0
  · have h := normalizeAll_eq_total (flattenChildren raw) (flattenChildren_no_arr raw)
    simp [createElement, hlen, h, normFilter, Bind.bind, Except.bind,
      Pure.pure, Except.pure]
  · have hraw : raw = [] := List.eq_nil_of_length_eq_zero (by omega)
    subst hraw
    simp [createElement, normFilter, flattenChildren, Bind.bind, Except.bind,
      Pure.pure, Except.pure]

/-- **C8.** `createElement` with raw children `["x", 5, null, true]` under a
Fragment type yields a VNode whose `props.children` is exactly the two Text
VNodes `"x"` and `"5"` in that order (`null` and `true` contribute nothing);
and in general `createElement` flattens raw children to arbitrary depth,
normalizes each, and drops the ones that normalize to null, storing the
result as `props.children`. -/
theorem createElement_children_normalized :
    (createElement .fragment none [.str "x", .num 5, .null, .bool true] =
      .ok (VNode.mk .fragment none []
            [createTextElement "x", createTextElement "5"]))
    ∧ (∀ (ty : VType) (op : Option (List (String × Value))) (raw : List Child),
        createElement ty op raw =
          .ok (VNode.mk ty (extractKey op) (extractAttrs op)
                (normFilter (flattenChildren raw)))) := by
  constructor
  · rw [createElement_eq_normFilter]
    simp only [flattenChildren, normFilter, normalizeNodeTotal, isEmptyValue,
      createTextElement, extractKey, extractAttrs, List.map, List.filterMap]
    rfl
  · exact createElement_eq_normFilter

/-- **C9 (counterexample).** Passing an array directly to `normalizeNode`
does not produce a Fragment VNode: the array branch reads
`node.props.children` while `node` — an array — has no `props`, so the
property access throws a `TypeError` (modelled as `Except.error`). -/
theorem normalizeNode_array_throws :
    normalizeNode (.arr [.str "x"]) = .error () := rfl

/-! ### Hook primitives: the state updater and effect queueing -/

/-- **C3.** A state updater compares the computed next value to the current
slot value with `Object.is`: if equal, the state is left untouched and no
re-render is requested; if different, the slot is overwritten with the next
value and exactly one re-render request goes to the scheduler. -/
theorem setState_identity_gate (path : String) (cursor : Nat) (nv : NextVal)
    (st : AppState) (hooks : List Slot) (cur : Value)
    (hl : alookup path st.hookState = some hooks)
    (hs : hooks.get? cursor = some (.val cur)) :
    (objectIs cur (nextOf nv cur) = true → setState path cursor nv st = st)
    ∧ (objectIs cur (nextOf nv cur) = false →
        setState path cursor nv st =
          { st with
              hookState :=
                aset path (setSlot hooks cursor (.val (nextOf nv cur)))
                  st.hookState
              renderRequests := st.renderRequests + 1
              renderScheduled := true }) := by
  constructor <;> intro h <;>
    cases nv <;>
      simp_all [setState, enqueueRender, nextOf, hl, hs]

/-- **C3 witness.** Updating the cell holding `0` with the value `0` is a
no-op; updating it with `1` writes the slot and issues one render request. -/
theorem setState_identity_gate_witness :
    setState "p" 0 (.val (.int 0)) exState0 = exState0
    ∧ setState "p" 0 (.val (.int 1)) exState0 =
        { exState0 with
            hookState :=
              aset "p" (setSlot [.val (.int 0)] 0
                (.val (nextOf (.val (.int 1)) (.int 0)))) exState0.hookState
            renderRequests := exState0.renderRequests + 1
            renderScheduled := true } :=
  ⟨(setState_identity_gate "p" 0 (.val (.int 0)) exState0 [.val (.int 0)]
      (.int 0) rfl rfl).1 (by decide),
   (setState_identity_gate "p" 0 (.val (.int 1)) exState0 [.val (.int 0)]
      (.int 0) rfl rfl).2 (by decide)⟩

/-- **C10.** Invoking a state updater for a path with no hook-store entry is
a silent no-op: no exception, no state write, no render request. -/
theorem setState_missing_path_noop (path : String) (cursor : Nat)
    (nv : NextVal) (st : AppState)
    (h : alookup path st.hookState = none) :
    setState path cursor nv st = st := by
  simp [setState, h]

/-- **C10 witness.** Path `"q"` has no entry in `exState0`'s hook store. -/
theorem setState_missing_path_noop_witness :
    setState "q" 0 (.val (.int 5)) exState0 = exState0 :=
  setState_missing_path_noop "q" 0 (.val (.int 5)) exState0 rfl

theorem shallowEqualsL_refl (l : List Value) : shallowEqualsL l l = true := by
  simp only [shallowEqualsL, beq_self_eq_true, Bool.true_and, List.all_eq_true]
  intro p hp
  have hp12 : p.1 = p.2 := by
    induction l with
    | nil => simp at hp
    | cons a rest ih =>
        rw [List.zip_cons_cons] at hp
        rcases List.mem_cons.mp hp with rfl | hp'
        · rfl
        · exact ih hp'
  simp [objectIs, hp12]

theorem useEffect_effectQueue (effTok : Nat) (deps : Option (List Value))
    (st : AppState) :
    (useEffect effTok deps st).effectQueue =
      st.effectQueue ++
        (if shouldRunB st.prevSlot deps then [(st.curPath, st.curCursor)]
         else []) := by
  cases hB : shouldRunB st.prevSlot deps with
  | true =>
      have h' : shouldRunB st.curHooks[st.curCursor]? deps = true := hB
      simp [useEffect, h']
  | false =>
      have h' : shouldRunB st.curHooks[st.curCursor]? deps = false := hB
      simp [useEffect, h']

theorem shouldRunB_iff_queuedSpec (prev : Option Slot)
    (deps : Option (List Value)) :
    shouldRunB prev deps = true ↔ queuedSpec prev deps := by
  cases prev with
  | none =>
      simp [shouldRunB, slotTruthy, queuedSpec]
  | some s =>
      cases s with
      | val v =>
          cases deps with
          | none => simp [shouldRunB, slotTruthy, slotDeps, queuedSpec]
          | some ds =>
              by_cases hv : v.truthy <;>
                simp [shouldRunB, slotTruthy, slotDeps, queuedSpec, hv]
      | eff d c e =>
          cases deps with
          | none => simp [shouldRunB, slotTruthy, slotDeps, queuedSpec]
          | some ds =>
              cases d with
              | none => simp [shouldRunB, slotTruthy, slotDeps, queuedSpec]
              | some pds =>
                  by_cases hsh : shallowEqualsL pds ds <;>
                    simp [shouldRunB, slotTruthy, slotDeps, queuedSpec, hsh]

/-- **C5.** `useEffect` appends its `(path, cursor)` to the pending-effects
queue exactly when: the slot was previously unoccupied, or no dependency
list is passed, or the previous occupancy stored no dependency list while the
current call passes one, or the lists differ under shallow element-wise
comparison.  Consequently an effect is queued on first occupancy even with
`[]` dependencies, and an effect whose stored dependency list equals the
current one element-wise is not re-queued. -/
theorem useEffect_queueing (effTok : Nat) (deps : Option (List Value))
    (st : AppState) :
    ((useEffect effTok deps st).effectQueue =
        st.effectQueue ++ [(st.curPath, st.curCursor)] ↔
      queuedSpec st.prevSlot deps)
    ∧ ((useEffect effTok deps st).effectQueue = st.effectQueue ↔
        ¬ queuedSpec st.prevSlot deps)
    ∧ (st.prevSlot = none → deps = some [] →
        (useEffect effTok deps st).effectQueue =
          st.effectQueue ++ [(st.curPath, st.curCursor)])
    ∧ (∀ pds cl tok, st.prevSlot = some (.eff (some pds) cl tok) →
        deps = some pds →
        (useEffect effTok deps st).effectQueue = st.effectQueue) := by
  have hq := useEffect_effectQueue effTok deps st
  have hiff := shouldRunB_iff_queuedSpec st.prevSlot deps
  refine ⟨?_, ?_, ?_, ?_⟩
  · rw [hq]
    by_cases h : shouldRunB st.prevSlot deps
    · simpa [h] using hiff.mp h
    · simp only [h, if_false, List.append_nil]
      constructor
      · intro hEq
        exact absurd (congrArg List.length hEq) (by simp)
      · intro hs
        exact absurd (hiff.mpr hs) h
  · rw [hq]
    by_cases h : shouldRunB st.prevSlot deps
    · simp only [h, if_true]
      constructor
      · intro hEq
        exact absurd (congrArg List.length hEq) (by simp)
      · intro hs
        exact absurd (hiff.mp h) hs
    · simpa [h] using fun hs => h (hiff.mpr hs)
  · intro h1 h2
    rw [hq]
    simp [shouldRunB, h1, slotTruthy]
  · intro pds cl tok h1 h2
    rw [hq]
    simp [shouldRunB, h1, h2, slotTruthy, slotDeps, shallowEqualsL_refl]

/-- **C5 witness.** In `exState0` (current path `""`, cursor 0, empty slot
array) an effect with `[]` dependencies is queued on first render. -/
theorem useEffect_queueing_witness :
    (useEffect 7 (some []) exState0).effectQueue =
      exState0.effectQueue ++ [("", 0)] :=
  (useEffect_queueing 7 (some []) exState0).2.2.1 rfl rfl

/-! ### Host adapter prop diffing -/

theorem alookup_eraseKey_ne {α : Type} (k k' : String) (l : List (String × α))
    (h : k' ≠ k) :
    alookup k' (eraseKey k l) = alookup k' l := by
  induction l with
  | nil => rfl
  | cons kv rest ih =>
      by_cases hk : kv.1 = k
      · simp [eraseKey, hk, alookup, Ne.symm h, ih]
      · by_cases hk' : kv.1 = k'
        · simp [eraseKey, hk, alookup, hk', h]
        · simp [eraseKey, hk, alookup, hk', ih]

theorem eraseKey_eq_self {α : Type} (k : String) (l : List (String × α))
    (h : ∀ kv ∈ l, kv.1 ≠ k) : eraseKey k l = l := by
  induction l with
  | nil => rfl
  | cons kv rest ih =>
      have h1 := h kv (by simp)
      simp [eraseKey, h1, ih (fun kv' h' => h kv' (by simp [h']))]

theorem removeEntryMuts_skip (dp : List String) (next : List (String × Value))
    (kv : String × Value) (h : (alookup kv.1 next).isSome) :
    removeEntryMuts dp next kv = [] := by
  by_cases hch : kv.1 = "children" <;> simp [removeEntryMuts, hch, h]

theorem removeEntryMuts_congr (dp : List String) (next : List (String × Value))
    (k : String) (kv : String × Value) (h : kv.1 ≠ k) :
    removeEntryMuts dp (eraseKey k next) kv = removeEntryMuts dp next kv := by
  unfold removeEntryMuts
  rw [alookup_eraseKey_ne k kv.1 next h]

theorem setEntryMuts_skip (dp : List String) (prev : List (String × Value))
    (kv : String × Value) (h : alookup kv.1 prev = some kv.2) :
    setEntryMuts dp prev kv = [] := by
  by_cases hch : kv.1 = "children" <;> simp [setEntryMuts, hch, h, objectIs]

theorem setEntryMuts_congr (dp : List String) (prev : List (String × Value))
    (k : String) (kv : String × Value) (h : kv.1 ≠ k) :
    setEntryMuts dp (eraseKey k prev) kv = setEntryMuts dp prev kv := by
  unfold setEntryMuts
  rw [alookup_eraseKey_ne k kv.1 prev h]

theorem removePhaseMuts_erase (dp : List String)
    (prev next : List (String × Value)) (k : String)
    (hk : (alookup k next).isSome) :
    removePhaseMuts dp prev next =
      removePhaseMuts dp (eraseKey k prev) (eraseKey k next) := by
  induction prev with
  | nil => rfl
  | cons kv rest ih =>
      by_cases hkk : kv.1 = k
      · rw [show eraseKey k (kv :: rest) = eraseKey k rest by
            simp [eraseKey, hkk]]
        rw [← ih]
        have hskip := removeEntryMuts_skip dp next kv (by rw [hkk]; exact hk)
        simp [removePhaseMuts, List.flatMap_cons, hskip]
      · rw [show eraseKey k (kv :: rest) = kv :: eraseKey k rest by
            simp [eraseKey, hkk]]
        simp only [removePhaseMuts, List.flatMap_cons]
        rw [removeEntryMuts_congr dp next k kv hkk]
        simp only [removePhaseMuts] at ih
        rw [ih]

theorem setPhaseMuts_prevErase (dp : List String)
    (prev next : List (String × Value)) (k : String)
    (h : ∀ kv ∈ next, kv.1 ≠ k) :
    setPhaseMuts dp prev next = setPhaseMuts dp (eraseKey k prev) next := by
  induction next with
  | nil => rfl
  | cons kv rest ih =>
      have h1 := h kv (by simp)
      have ht := ih (fun kv' h' => h kv' (by simp [h']))
      simp only [setPhaseMuts, List.flatMap_cons]
      rw [setEntryMuts_congr dp prev k kv h1]
      simp only [setPhaseMuts] at ht
      rw [ht]

theorem setPhaseMuts_erase (dp : List String) (prev next : List (String × Value))
    (k : String) (v : Value) (hp : alookup k prev = some v)
    (hn : alookup k next = some v) (hnd : (next.map Prod.fst).Nodup) :
    setPhaseMuts dp prev next =
      setPhaseMuts dp (eraseKey k prev) (eraseKey k next) := by
  induction next with
  | nil => simp [alookup] at hn
  | cons kv rest ih =>
      by_cases hkk : kv.1 = k
      · have hv : kv.2 = v := by simpa [alookup, hkk] using hn
        rw [List.map_cons] at hnd
        have hnd2 := List.nodup_cons.mp hnd
        have hrest : ∀ kv' ∈ rest, kv'.1 ≠ k := by
          intro kv' h' hEq
          exact hnd2.1 (hkk ▸ hEq ▸ List.mem_map_of_mem Prod.fst h')
        rw [show eraseKey k (kv :: rest) = eraseKey k rest by
            simp [eraseKey, hkk]]
        rw [eraseKey_eq_self k rest hrest]
        have hskip : setEntryMuts dp prev kv = [] := by
          apply setEntryMuts_skip
          rw [hkk, hv]
          exact hp
        have ht := setPhaseMuts_prevErase dp prev rest k hrest
        simp only [setPhaseMuts, List.flatMap_cons, hskip, List.nil_append]
        simp only [setPhaseMuts] at ht
        rw [ht]
      · have hn2 : alookup k rest = some v := by
          have hne : ¬ kv.1 = k := hkk
          simpa [alookup, hne] using hn
        rw [List.map_cons] at hnd
        have hnd2 := List.nodup_cons.mp hnd
        have ht := ih hn2 hnd2.2
        rw [show eraseKey k (kv :: rest) = kv :: eraseKey k rest by
            simp [eraseKey, hkk]]
        simp only [setPhaseMuts, List.flatMap_cons]
        rw [setEntryMuts_congr dp prev k kv hkk]
        simp only [setPhaseMuts] at ht
        rw [ht]

/-- **C7.** Diffing props `{a:1, b:2}` → `{a:1, c:3}` issues exactly two
target mutations — remove `b`, set `c` — and nothing at all for `a`; and in
general any key whose old and new values are identity-equal is skipped
entirely: the mutation trace equals the trace computed with that key erased
from both prop objects. -/
theorem updateDomProps_minimal_diff :
    (∀ dp : List String,
      updateDomPropsMuts dp [("a", .int 1), ("b", .int 2)]
          [("a", .int 1), ("c", .int 3)] =
        [(if "b" ∈ dp then Mutation.setProp "b" .undef
          else Mutation.removeAttr "b"),
         (if "c" ∈ dp then Mutation.setProp "c" (.int 3)
          else Mutation.setAttr "c" (.int 3))])
    ∧ (∀ (dp : List String) (prev next : List (String × Value)) (k : String)
        (v : Value), alookup k prev = some v → alookup k next = some v →
        (next.map Prod.fst).Nodup →
        updateDomPropsMuts dp prev next =
          updateDomPropsMuts dp (eraseKey k prev) (eraseKey k next)) := by
  constructor
  · intro dp
    have ha : "a".startsWith "on" = false := rfl
    have hb' : "b".startsWith "on" = false := rfl
    have hc' : "c".startsWith "on" = false := rfl
    by_cases hb : "b" ∈ dp <;> by_cases hc : "c" ∈ dp <;>
      simp [updateDomPropsMuts, removePhaseMuts, setPhaseMuts,
        removeEntryMuts, setEntryMuts, alookup, objectIs, Value.isObjectType,
        ha, hb', hc', hb, hc]
  · intro dp prev next k v hp hn hnd
    unfold updateDomPropsMuts
    rw [removePhaseMuts_erase dp prev next k (by simp [hn]),
        setPhaseMuts_erase dp prev next k v hp hn hnd]

/-- **C7 witness.** Erasing the identity-equal key `"a"` from both sides
leaves the diff of `{a:1}` → `{a:1, b:2}` unchanged. -/
theorem updateDomProps_minimal_diff_witness :
    updateDomPropsMuts [] [("a", .int 1)] [("a", .int 1), ("b", .int 2)] =
      updateDomPropsMuts [] (eraseKey "a" [("a", Value.int 1)])
        (eraseKey "a" [("a", Value.int 1), ("b", Value.int 2)]) :=
  updateDomProps_minimal_diff.2 [] _ _ "a" (.int 1) rfl rfl (by decide)

/-! ### Render scheduling and batching -/

theorem cleanupUnusedHooks_renderCount (st : AppState) :
    (cleanupUnusedHooks st).renderCount = st.renderCount := rfl

theorem render_renderCount (env : CompEnv) (fuel : Nat) (st : AppState)
    (c : Nat) (n : VNode) (hc : st.rootContainer = some c)
    (hn : st.rootNode = some n) :
    (render env fuel st).renderCount = st.renderCount + 1 := by
  rcases hrec : reconcile env fuel c st.rootInstance (some n) ""
      { dom := st.dom, cursorMap := [], visited := [], componentStack := [] }
    with ⟨inst, rs2⟩
  simp [render, hc, hn, hrec, cleanupUnusedHooks]

theorem setSlot_get_self (l : List Slot) (i : Nat) (x : Slot)
    (h : i < l.length) : (setSlot l i x).get? i = some x := by
  rw [List.get?_eq_getElem?]
  simp [setSlot, h, List.getElem?_set_eq_of_lt]

/-- **C4.** With a state slot holding `0`, two same-turn updater calls with
`(prev) => prev + 1` (before any render) leave the slot at `2`, issue two
coalescing render requests without running a render, and the deferred turn
boundary then performs exactly one render pass. -/
theorem setState_double_increment_batches (env : CompEnv) (fuel : Nat)
    (path : String) (cursor : Nat) (st : AppState) (hooks : List Slot)
    (hl : alookup path st.hookState = some hooks)
    (hs : hooks.get? cursor = some (.val (.int 0)))
    (_hns : st.renderScheduled = false)
    (c : Nat) (n : VNode)
    (hc : st.rootContainer = some c) (hn : st.rootNode = some n) :
    (∃ hooks2,
      alookup path
          (setState path cursor (.fn incFn)
            (setState path cursor (.fn incFn) st)).hookState = some hooks2 ∧
        hooks2.get? cursor = some (.val (.int 2)))
    ∧ (setState path cursor (.fn incFn)
        (setState path cursor (.fn incFn) st)).renderCount = st.renderCount
    ∧ (setState path cursor (.fn incFn)
        (setState path cursor (.fn incFn) st)).renderRequests =
          st.renderRequests + 2
    ∧ (setState path cursor (.fn incFn)
        (setState path cursor (.fn incFn) st)).renderScheduled = true
    ∧ (endTurn env fuel
        (setState path cursor (.fn incFn)
          (setState path cursor (.fn incFn) st))).renderCount =
          st.renderCount + 1 := by
  have hlen : cursor < hooks.length := by
    rcases List.get?_eq_some.mp hs with ⟨hlt, _⟩
    exact hlt
  have hs' : hooks[cursor]? = some (Slot.val (.int 0)) := by
    rw [← List.get?_eq_getElem?]; exact hs
  have e1 : setState path cursor (.fn incFn) st =
      { st with
          hookState := aset path (setSlot hooks cursor (.val (.int 1)))
            st.hookState
          renderRequests := st.renderRequests + 1
          renderScheduled := true } := by
    simp [setState, hl, hs', enqueueRender, incFn, objectIs]
  have hlen1 : cursor < (setSlot hooks cursor (.val (.int 1))).length := by
    simp [setSlot, hlen]
  have hget1 : (setSlot hooks cursor (.val (.int 1)))[cursor]? =
      some (Slot.val (.int 1)) := by
    rw [← List.get?_eq_getElem?]
    exact setSlot_get_self hooks cursor _ hlen
  have e2 : setState path cursor (.fn incFn)
      (setState path cursor (.fn incFn) st) =
      { st with
          hookState := aset path
            (setSlot (setSlot hooks cursor (.val (.int 1))) cursor
              (.val (.int 2)))
            (aset path (setSlot hooks cursor (.val (.int 1))) st.hookState)
          renderRequests := st.renderRequests + 2
          renderScheduled := true } := by
    rw [e1]
    simp [setState, alookup_aset_self, hget1, enqueueRender, incFn, objectIs]
  refine ⟨?_, ?_, ?_, ?_, ?_⟩
  · refine ⟨setSlot (setSlot hooks cursor (.val (.int 1))) cursor
      (.val (.int 2)), ?_, ?_⟩
    · rw [e2]
      exact alookup_aset_self path _ _
    · exact setSlot_get_self _ cursor _ hlen1
  · rw [e2]
  · rw [e2]
  · rw [e2]
  · rw [e2]
    have hsched : ({ st with
        hookState := aset path
          (setSlot (setSlot hooks cursor (.val (.int 1))) cursor
            (.val (.int 2)))
          (aset path (setSlot hooks cursor (.val (.int 1))) st.hookState)
        renderRequests := st.renderRequests + 2
        renderScheduled := true } : AppState).renderScheduled = true := rfl
    rw [endTurn, if_pos hsched]
    rw [render_renderCount env fuel _ c n (by simpa using hc) (by simpa using hn)]

/-- **C4 witness.** The concrete run on `exState0` extended with a root:
slot `2`, two requests, one deferred render. -/
theorem setState_double_increment_batches_witness :
    (∃ hooks2,
      alookup "p"
          (setState "p" 0 (.fn incFn)
            (setState "p" 0 (.fn incFn) exStateRoot)).hookState = some hooks2 ∧
        hooks2.get? 0 = some (.val (.int 2)))
    ∧ (setState "p" 0 (.fn incFn)
        (setState "p" 0 (.fn incFn) exStateRoot)).renderCount =
          exStateRoot.renderCount
    ∧ (setState "p" 0 (.fn incFn)
        (setState "p" 0 (.fn incFn) exStateRoot)).renderRequests =
          exStateRoot.renderRequests + 2
    ∧ (setState "p" 0 (.fn incFn)
        (setState "p" 0 (.fn incFn) exStateRoot)).renderScheduled = true
    ∧ (endTurn exEnv 3
        (setState "p" 0 (.fn incFn)
          (setState "p" 0 (.fn incFn) exStateRoot))).renderCount =
          exStateRoot.renderCount + 1 :=
  setState_double_increment_batches exEnv 3 "p" 0 exStateRoot
    [.val (.int 0)] rfl rfl rfl 0 exRootNode rfl rfl

/-! ### DOM-model lemmas: freshness and detachment -/

theorem DomFresh.refl (d : DomState) : DomFresh d d :=
  ⟨le_refl _, fun _ _ => rfl, fun _ _ h => Or.inl h⟩

theorem DomFresh.trans {d1 d2 d3 : DomState} (h12 : DomFresh d1 d2)
    (h23 : DomFresh d2 d3) : DomFresh d1 d3 := by
  obtain ⟨a1, b1, c1⟩ := h12
  obtain ⟨a2, b2, c2⟩ := h23
  refine ⟨le_trans a1 a2, fun id h => ?_, fun q m h => ?_⟩
  · rw [b2 id (lt_of_lt_of_le h a1), b1 id h]
  · rcases c2 q m h with h' | h'
    · exact c1 q m h'
    · exact Or.inr (le_trans a1 h')

theorem alookup_mapVal {κ α β : Type} [DecidableEq κ] (f : α → β) (k : κ)
    (l : List (κ × α)) :
    alookup k (l.map fun kv => (kv.1, f kv.2)) = (alookup k l).map f := by
  induction l with
  | nil => rfl
  | cons kv rest ih =>
      by_cases h : kv.1 = k <;> simp [alookup, h, ih]

theorem alookup_append {κ α : Type} [DecidableEq κ] (k : κ)
    (l1 l2 : List (κ × α)) :
    alookup k (l1 ++ l2) =
      match alookup k l1 with
      | some v => some v
      | none => alookup k l2 := by
  induction l1 with
  | nil => rfl
  | cons kv rest ih =>
      by_cases h : kv.1 = k <;> simp [alookup, h, ih]

theorem removeFromParents_childrenOf (d : DomState) (n p : Nat) :
    (removeFromParents d n).childrenOf p =
      (d.childrenOf p).filter fun x => x ≠ n := by
  unfold removeFromParents DomState.childrenOf
  rw [show d.childrenMap.map (fun pc => (pc.1, pc.2.filter fun x => x ≠ n)) =
      d.childrenMap.map (fun pc => (pc.1, (fun cs => cs.filter fun x => x ≠ n) pc.2))
      from rfl]
  rw [alookup_mapVal]
  cases alookup p d.childrenMap <;> simp

theorem mem_removeFromParents (d : DomState) (n p m : Nat) :
    m ∈ (removeFromParents d n).childrenOf p ↔
      m ∈ d.childrenOf p ∧ m ≠ n := by
  rw [removeFromParents_childrenOf]
  simp [List.mem_filter]

theorem removeFromParents_nodes (d : DomState) (n : Nat) :
    (removeFromParents d n).nodes = d.nodes := rfl

theorem removeFromParents_nextId (d : DomState) (n : Nat) :
    (removeFromParents d n).nextId = d.nextId := rfl

theorem appendChild_nodes (d : DomState) (parent n : Nat) :
    (appendChild d parent n).nodes = d.nodes := rfl

theorem appendChild_nextId (d : DomState) (parent n : Nat) :
    (appendChild d parent n).nextId = d.nextId := rfl

theorem appendChild_childrenOf (d : DomState) (parent n q : Nat) :
    (appendChild d parent n).childrenOf q =
      if q = parent then (removeFromParents d n).childrenOf q ++ [n]
      else (removeFromParents d n).childrenOf q := by
  by_cases hq : q = parent
  · subst hq
    simp [appendChild, DomState.childrenOf, alookup_aset_self]
  · simp [appendChild, DomState.childrenOf, hq,
      alookup_aset_ne parent q _ _ fun hh => hq hh.symm]

theorem mem_appendChild (d : DomState) (parent n q m : Nat)
    (h : m ∈ (appendChild d parent n).childrenOf q) :
    m ∈ d.childrenOf q ∨ m = n := by
  rw [appendChild_childrenOf] at h
  by_cases hq : q = parent
  · rw [if_pos hq] at h
    rcases List.mem_append.mp h with h | h
    · exact Or.inl ((mem_removeFromParents d n q m).mp h).1
    · exact Or.inr (List.mem_singleton.mp h)
  · rw [if_neg hq] at h
    exact Or.inl ((mem_removeFromParents d n q m).mp h).1

theorem foldl_appendChild_nodes (ns : List Nat) (parent : Nat) :
    ∀ d : DomState,
      (ns.foldl (fun d n => appendChild d parent n) d).nodes = d.nodes := by
  induction ns with
  | nil => intro d; rfl
  | cons n rest ih => intro d; rw [List.foldl_cons, ih, appendChild_nodes]

theorem foldl_appendChild_nextId (ns : List Nat) (parent : Nat) :
    ∀ d : DomState,
      (ns.foldl (fun d n => appendChild d parent n) d).nextId = d.nextId := by
  induction ns with
  | nil => intro d; rfl
  | cons n rest ih => intro d; rw [List.foldl_cons, ih, appendChild_nextId]

theorem mem_foldl_appendChild (ns : List Nat) (parent : Nat) :
    ∀ (d : DomState) (q m : Nat),
      m ∈ (ns.foldl (fun d n => appendChild d parent n) d).childrenOf q →
      m ∈ d.childrenOf q ∨ m ∈ ns := by
  induction ns with
  | nil => intro d q m h; exact Or.inl h
  | cons n rest ih =>
      intro d q m h
      rw [List.foldl_cons] at h
      rcases ih (appendChild d parent n) q m h with h' | h'
      · rcases mem_appendChild d parent n q m h' with h'' | h''
        · exact Or.inl h''
        · exact Or.inr (by simp [h''])
      · exact Or.inr (by simp [h'])

theorem insertInstance_nodes (d : DomState) (parent : Nat)
    (inst? : Option Instance) :
    (insertInstance d parent inst? none).nodes = d.nodes := by
  cases inst? with
  | none => rfl
  | some inst =>
      unfold insertInstance
      by_cases h : getDomNodes inst = [] <;>
        simp [h, foldl_appendChild_nodes]

theorem insertInstance_nextId (d : DomState) (parent : Nat)
    (inst? : Option Instance) :
    (insertInstance d parent inst? none).nextId = d.nextId := by
  cases inst? with
  | none => rfl
  | some inst =>
      unfold insertInstance
      by_cases h : getDomNodes inst = [] <;>
        simp [h, foldl_appendChild_nextId]

theorem mem_insertInstance (d : DomState) (parent : Nat)
    (inst? : Option Instance) (q m : Nat)
    (h : m ∈ (insertInstance d parent inst? none).childrenOf q) :
    m ∈ d.childrenOf q ∨ m ∈ domNodesOf inst? := by
  cases inst? with
  | none => exact Or.inl h
  | some inst =>
      unfold insertInstance at h
      by_cases hns : getDomNodes inst = []
      · simp only [hns, if_true] at h
        exact Or.inl h
      · simp only [hns, if_false] at h
        exact mem_foldl_appendChild _ parent d q m h

theorem mem_foldl_removeFromParents (ns : List Nat) :
    ∀ (d : DomState) (q m : Nat),
      m ∈ (ns.foldl removeFromParents d).childrenOf q →
      m ∈ d.childrenOf q ∧ m ∉ ns := by
  induction ns with
  | nil => intro d q m h; exact ⟨h, by simp⟩
  | cons n rest ih =>
      intro d q m h
      rw [List.foldl_cons] at h
      obtain ⟨h1, h2⟩ := ih (removeFromParents d n) q m h
      obtain ⟨h3, h4⟩ := (mem_removeFromParents d n q m).mp h1
      exact ⟨h3, by simp [h2, h4]⟩

theorem foldl_removeFromParents_nodes (ns : List Nat) :
    ∀ d : DomState, (ns.foldl removeFromParents d).nodes = d.nodes := by
  induction ns with
  | nil => intro d; rfl
  | cons n rest ih => intro d; rw [List.foldl_cons, ih, removeFromParents_nodes]

theorem foldl_removeFromParents_nextId (ns : List Nat) :
    ∀ d : DomState, (ns.foldl removeFromParents d).nextId = d.nextId := by
  induction ns with
  | nil => intro d; rfl
  | cons n rest ih => intro d; rw [List.foldl_cons, ih, removeFromParents_nextId]

theorem removeInstance_nodes (d : DomState) (parent : Nat)
    (inst? : Option Instance) :
    (removeInstance d parent inst?).nodes = d.nodes := by
  cases inst? with
  | none => rfl
  | some inst => exact foldl_removeFromParents_nodes _ d

theorem removeInstance_nextId (d : DomState) (parent : Nat)
    (inst? : Option Instance) :
    (removeInstance d parent inst?).nextId = d.nextId := by
  cases inst? with
  | none => rfl
  | some inst => exact foldl_removeFromParents_nextId _ d

theorem mem_removeInstance (d : DomState) (parent : Nat) (inst : Instance)
    (q m : Nat) (h : m ∈ (removeInstance d parent (some inst)).childrenOf q) :
    m ∈ d.childrenOf q ∧ m ∉ getDomNodes inst :=
  mem_foldl_removeFromParents _ d q m h

/-- **Unmount detachment**: after `removeInstance`, none of the instance's
owned handles remains under any parent. -/
theorem removeInstance_detaches (d : DomState) (parent : Nat)
    (inst : Instance) (m : Nat) (hm : m ∈ getDomNodes inst) (q : Nat) :
    m ∉ (removeInstance d parent (some inst)).childrenOf q := by
  intro hmem
  exact (mem_removeInstance d parent inst q m hmem).2 hm

theorem DomFresh.removeInstance (d : DomState) (parent : Nat)
    (inst? : Option Instance) :
    DomFresh d (removeInstance d parent inst?) := by
  cases inst? with
  | none => exact DomFresh.refl d
  | some inst =>
      refine ⟨?_, ?_, ?_⟩
      · rw [removeInstance_nextId]
      · intro id _
        unfold DomState.dataOf
        rw [removeInstance_nodes]
      · intro q m h
        exact Or.inl (mem_removeInstance d parent inst q m h).1

theorem alloc_nextId (d : DomState) (nd : NodeData) :
    (d.alloc nd).2.nextId = d.nextId + 1 := rfl

theorem alloc_fst (d : DomState) (nd : NodeData) :
    (d.alloc nd).1 = d.nextId := rfl

theorem alloc_childrenOf (d : DomState) (nd : NodeData) (q : Nat) :
    (d.alloc nd).2.childrenOf q = d.childrenOf q := rfl

theorem alloc_dataOf_lt (d : DomState) (nd : NodeData) (id : Nat)
    (h : id < d.nextId) : (d.alloc nd).2.dataOf id = d.dataOf id := by
  unfold DomState.alloc DomState.dataOf
  simp only
  rw [alookup_append]
  cases h' : alookup id d.nodes with
  | some v => rfl
  | none => simp [alookup, Nat.ne_of_gt h]

theorem applyMutation_childrenMap (d : DomState) (id : Nat) (m : Mutation) :
    (applyMutation d id m).childrenMap = d.childrenMap := by
  unfold applyMutation
  split <;> rfl

theorem applyMutation_nextId (d : DomState) (id : Nat) (m : Mutation) :
    (applyMutation d id m).nextId = d.nextId := by
  unfold applyMutation
  split <;> rfl

theorem applyMutation_dataOf_ne (d : DomState) (id : Nat) (m : Mutation)
    (id' : Nat) (h : id' ≠ id) :
    (applyMutation d id m).dataOf id' = d.dataOf id' := by
  unfold applyMutation
  split
  · unfold DomState.dataOf
    exact alookup_aset_ne id id' _ _ (Ne.symm h)
  · rfl

theorem applyMuts_childrenMap (ms : List Mutation) (id : Nat) :
    ∀ d : DomState, (applyMuts d id ms).childrenMap = d.childrenMap := by
  induction ms with
  | nil => intro d; rfl
  | cons m rest ih =>
      intro d
      unfold applyMuts at *
      rw [List.foldl_cons, ih, applyMutation_childrenMap]

theorem applyMuts_nextId (ms : List Mutation) (id : Nat) :
    ∀ d : DomState, (applyMuts d id ms).nextId = d.nextId := by
  induction ms with
  | nil => intro d; rfl
  | cons m rest ih =>
      intro d
      unfold applyMuts at *
      rw [List.foldl_cons, ih, applyMutation_nextId]

theorem applyMuts_dataOf_ne (ms : List Mutation) (id id' : Nat)
    (h : id' ≠ id) :
    ∀ d : DomState, (applyMuts d id ms).dataOf id' = d.dataOf id' := by
  induction ms with
  | nil => intro d; rfl
  | cons m rest ih =>
      intro d
      unfold applyMuts at *
      rw [List.foldl_cons, ih, applyMutation_dataOf_ne _ _ _ _ h]

theorem setDomProps_childrenOf (d : DomState) (id : Nat)
    (props : List (String × Value)) (q : Nat) :
    (setDomProps d id props).childrenOf q = d.childrenOf q := by
  unfold setDomProps DomState.childrenOf
  split
  · rw [applyMuts_childrenMap]
  · rfl

theorem setDomProps_nextId (d : DomState) (id : Nat)
    (props : List (String × Value)) :
    (setDomProps d id props).nextId = d.nextId := by
  unfold setDomProps
  split
  · rw [applyMuts_nextId]
  · rfl

theorem setDomProps_dataOf_ne (d : DomState) (id : Nat)
    (props : List (String × Value)) (id' : Nat) (h : id' ≠ id) :
    (setDomProps d id props).dataOf id' = d.dataOf id' := by
  unfold setDomProps
  split
  · rw [applyMuts_dataOf_ne _ _ _ h]
  · rfl

theorem updateDomProps_childrenOf (d : DomState) (id : Nat)
    (prev next : List (String × Value)) (q : Nat) :
    (updateDomProps d id prev next).childrenOf q = d.childrenOf q := by
  unfold updateDomProps DomState.childrenOf
  split
  · rw [applyMuts_childrenMap]
  · rfl

theorem updateDomProps_nextId (d : DomState) (id : Nat)
    (prev next : List (String × Value)) :
    (updateDomProps d id prev next).nextId = d.nextId := by
  unfold updateDomProps
  split
  · rw [applyMuts_nextId]
  · rfl

theorem setTextContent_childrenOf (d : DomState) (id : Nat) (str : String)
    (q : Nat) : (setTextContent d id str).childrenOf q = d.childrenOf q := rfl

theorem setTextContent_nextId (d : DomState) (id : Nat) (str : String) :
    (setTextContent d id str).nextId = d.nextId := rfl

theorem getDomNodesL_cons (c? : Option Instance) (rest : List (Option Instance)) :
    getDomNodesL (c? :: rest) = domNodesOf c? ++ getDomNodesL rest := by
  cases c? with
  | none => simp [getDomNodesL, domNodesOf]
  | some c => simp [getDomNodesL, domNodesOf]

theorem getDomNodes_mk_fragment (dom : Option Nat) (n : VNode)
    (cs : List (Option Instance)) (k : Option Value) (p : String) :
    getDomNodes (.mk .fragment dom n cs k p) = getDomNodesL cs := by
  simp [getDomNodes]

theorem getDomNodes_mk_component (dom : Option Nat) (n : VNode)
    (cs : List (Option Instance)) (k : Option Value) (p : String) :
    getDomNodes (.mk .component dom n cs k p) = getDomNodesL cs := by
  simp [getDomNodes]

theorem getDomNodes_mk_text (id : Nat) (n : VNode)
    (cs : List (Option Instance)) (k : Option Value) (p : String) :
    getDomNodes (.mk .text (some id) n cs k p) = [id] := by
  simp [getDomNodes]

theorem getDomNodes_mk_host (id : Nat) (n : VNode)
    (cs : List (Option Instance)) (k : Option Value) (p : String) :
    getDomNodes (.mk .host (some id) n cs k p) = [id] := by
  simp [getDomNodes]

theorem mem_removeTrailing (parent : Nat) (olds : List (Option Instance))
    (fromIdx : Nat) (d : DomState) (q m : Nat)
    (h : m ∈ (removeTrailing parent olds fromIdx d).childrenOf q) :
    m ∈ d.childrenOf q ∧
      ∀ c? ∈ olds.drop fromIdx, ∀ c, c? = some c → m ∉ getDomNodes c := by
  unfold removeTrailing at h
  generalize hcs : olds.drop fromIdx = cs at h ⊢
  clear hcs
  induction cs generalizing d with
  | nil => exact ⟨h, by simp⟩
  | cons c? rest ih =>
      rw [List.foldl_cons] at h
      cases c? with
      | none =>
          obtain ⟨h1, h2⟩ := ih d h
          refine ⟨h1, ?_⟩
          intro c? hc? c hcEq
          rcases List.mem_cons.mp hc? with rfl | hmem
          · cases hcEq
          · exact h2 c? hmem c hcEq
      | some c =>
          obtain ⟨h1, h2⟩ := ih _ h
          obtain ⟨h3, h4⟩ := mem_removeInstance d parent c q m h1
          refine ⟨h3, ?_⟩
          intro c? hc? c' hcEq
          rcases List.mem_cons.mp hc? with rfl | hmem
          · cases hcEq; exact h4
          · exact h2 c? hmem c' hcEq

theorem removeTrailing_nextId (parent : Nat) (olds : List (Option Instance))
    (fromIdx : Nat) (d : DomState) :
    (removeTrailing parent olds fromIdx d).nextId = d.nextId := by
  unfold removeTrailing
  generalize olds.drop fromIdx = cs
  induction cs generalizing d with
  | nil => rfl
  | cons c? rest ih =>
      rw [List.foldl_cons]
      cases c? with
      | none => exact ih d
      | some c => rw [ih, removeInstance_nextId]

/-! ### Mount-only reconciliation is fresh -/

theorem DomFresh_alloc (d : DomState) (nd : NodeData) :
    DomFresh d (d.alloc nd).2 := by
  refine ⟨by rw [alloc_nextId]; omega, ?_, ?_⟩
  · intro id h
    exact alloc_dataOf_lt d nd id h
  · intro q m h
    rw [alloc_childrenOf] at h
    exact Or.inl h

theorem domNodesOf_some (i : Instance) : domNodesOf (some i) = getDomNodes i :=
  rfl

theorem reconcileChildrenF_mount_fresh
    (rec : Nat → Option Instance → Option VNode → String → RecState →
      Option Instance × RecState)
    (H : ∀ p n pa s, DomFresh s.dom (rec p none n pa s).2.dom ∧
        ∀ m ∈ domNodesOf (rec p none n pa s).1,
          s.dom.nextId ≤ m ∧ m < (rec p none n pa s).2.dom.nextId) :
    ∀ (rest : List VNode) (idx : Nat) (path : String) (parent : Nat)
      (siblings : List VNode) (s : RecState),
      DomFresh s.dom
          (reconcileChildrenF rec parent [] siblings rest idx path s).2.dom
      ∧ ∀ m ∈ getDomNodesL
            (reconcileChildrenF rec parent [] siblings rest idx path s).1,
          s.dom.nextId ≤ m ∧
            m < (reconcileChildrenF rec parent [] siblings rest idx path s).2.dom.nextId := by
  intro rest
  induction rest with
  | nil =>
      intro idx path parent siblings s
      refine ⟨DomFresh.refl s.dom, ?_⟩
      intro m hm
      simp [reconcileChildrenF, getDomNodesL] at hm
  | cons child rest ih =>
      intro idx path parent siblings s
      simp only [reconcileChildrenF, List.get?, Option.getD_none]
      have hH := H parent (some child)
        (createChildPath path child.key idx child.ty siblings) s
      have hih := ih (idx + 1) path parent siblings
        (rec parent none (some child)
          (createChildPath path child.key idx child.ty siblings) s).2
      refine ⟨DomFresh.trans hH.1 hih.1, ?_⟩
      intro m hm
      rw [getDomNodesL_cons] at hm
      rcases List.mem_append.mp hm with hm | hm
      · obtain ⟨hlo, hhi⟩ := hH.2 m hm
        exact ⟨hlo, lt_of_lt_of_le hhi hih.1.1⟩
      · obtain ⟨hlo, hhi⟩ := hih.2 m hm
        exact ⟨le_trans hH.1.1 hlo, hhi⟩

theorem reconcile_mount_fresh (env : CompEnv) :
    ∀ (fuel parent : Nat) (node? : Option VNode) (path : String)
      (s : RecState),
      DomFresh s.dom (reconcile env fuel parent none node? path s).2.dom
      ∧ ∀ m ∈ domNodesOf (reconcile env fuel parent none node? path s).1,
          s.dom.nextId ≤ m ∧
            m < (reconcile env fuel parent none node? path s).2.dom.nextId := by
  intro fuel
  induction fuel with
  | zero =>
      intro parent node? path s
      refine ⟨DomFresh.refl s.dom, ?_⟩
      intro m hm
      simp [reconcile, domNodesOf] at hm
  | succ fuel ih =>
      intro parent node? path s
      cases node? with
      | none =>
          refine ⟨DomFresh.refl s.dom, ?_⟩
          intro m hm
          simp [reconcile, domNodesOf] at hm
      | some node =>
          rcases node with ⟨ty, key, attrs, children⟩
          cases ty with
          | text =>
              simp only [reconcile, VNode.ty, VNode.key]
              rw [alloc_fst]
              constructor
              · refine ⟨?_, ?_, ?_⟩
                · rw [insertInstance_nextId, alloc_nextId]
                  omega
                · intro id h
                  unfold DomState.dataOf
                  rw [insertInstance_nodes]
                  exact alloc_dataOf_lt _ _ _ h
                · intro q m h
                  rcases mem_insertInstance _ _ _ _ _ h with h' | h'
                  · rw [alloc_childrenOf] at h'
                    exact Or.inl h'
                  · rw [domNodesOf_some, getDomNodes_mk_text] at h'
                    rcases List.mem_singleton.mp h' with rfl
                    exact Or.inr (le_refl _)
              · intro m hm
                rw [domNodesOf_some, getDomNodes_mk_text] at hm
                rcases List.mem_singleton.mp hm with rfl
                rw [insertInstance_nextId, alloc_nextId]
                omega
          | fragment =>
              simp only [reconcile, VNode.ty, VNode.key, VNode.children]
              have hch := reconcileChildrenF_mount_fresh (reconcile env fuel)
                (fun p n pa s => ih p n pa s) children 0 path parent children s
              refine ⟨hch.1, ?_⟩
              intro m hm
              rw [domNodesOf_some, getDomNodes_mk_fragment] at hm
              exact hch.2 m hm
          | comp cid nm =>
              simp only [reconcile, VNode.ty, VNode.key, VNode.attrs,
                VNode.children]
              have hrec := ih parent (env cid attrs children)
                (compChildPath path (env cid attrs children))
                { s with
                    componentStack := path :: s.componentStack
                    cursorMap := aset path 0 s.cursorMap
                    visited := s.visited.insert path }
              refine ⟨hrec.1, ?_⟩
              intro m hm
              rcases hci : (reconcile env fuel parent none (env cid attrs children)
                  (compChildPath path (env cid attrs children))
                  { s with
                      componentStack := path :: s.componentStack
                      cursorMap := aset path 0 s.cursorMap
                      visited := s.visited.insert path }).1 with _ | c
              · rw [hci] at hm
                rw [domNodesOf_some, getDomNodes_mk_component] at hm
                simp [singletonChildren, getDomNodesL] at hm
              · rw [hci] at hm
                rw [domNodesOf_some, getDomNodes_mk_component] at hm
                simp only [singletonChildren] at hm
                rw [getDomNodesL_cons] at hm
                rcases List.mem_append.mp hm with hm | hm
                · exact hrec.2 m (by rw [hci]; exact hm)
                · simp [getDomNodesL] at hm
          | host tag =>
              simp only [reconcile, VNode.ty, VNode.key, VNode.attrs,
                VNode.children]
              rw [alloc_fst]
              have hch := reconcileChildrenF_mount_fresh (reconcile env fuel)
                (fun p n pa s => ih p n pa s) children 0 path s.dom.nextId
                children
                { s with
                    dom := setDomProps (s.dom.alloc (.elem tag [] [] [] [])).2
                      s.dom.nextId attrs }
              have hmid_next : (setDomProps (s.dom.alloc (.elem tag [] [] [] [])).2
                  s.dom.nextId attrs).nextId = s.dom.nextId + 1 := by
                rw [setDomProps_nextId, alloc_nextId]
              constructor
              · refine ⟨?_, ?_, ?_⟩
                · rw [insertInstance_nextId]
                  have h1 := hch.1.1
                  rw [hmid_next] at h1
                  omega
                · intro id h
                  unfold DomState.dataOf
                  rw [insertInstance_nodes]
                  have h2 := hch.1.2.1 id (by rw [hmid_next]; omega)
                  unfold DomState.dataOf at h2
                  rw [h2]
                  have h3 := setDomProps_dataOf_ne
                    (s.dom.alloc (.elem tag [] [] [] [])).2 s.dom.nextId attrs id
                    (Nat.ne_of_lt h)
                  unfold DomState.dataOf at h3
                  rw [h3]
                  have h4 := alloc_dataOf_lt s.dom (.elem tag [] [] [] []) id h
                  unfold DomState.dataOf at h4
                  rw [h4]
                · intro q m h
                  rcases mem_insertInstance _ _ _ _ _ h with h' | h'
                  · rcases hch.1.2.2 q m h' with h'' | h''
                    · rw [setDomProps_childrenOf, alloc_childrenOf] at h''
                      exact Or.inl h''
                    · rw [hmid_next] at h''
                      exact Or.inr (by omega)
                  · rw [domNodesOf_some, getDomNodes_mk_host] at h'
                    rcases List.mem_singleton.mp h' with rfl
                    exact Or.inr (le_refl _)
              · intro m hm
                rw [domNodesOf_some, getDomNodes_mk_host] at hm
                rcases List.mem_singleton.mp hm with rfl
                rw [insertInstance_nextId]
                have h1 := hch.1.1
                rw [hmid_next] at h1
                omega

/-! ### C1: type/key mismatch forces unmount-then-mount -/

/-- **C1.** When a previous instance exists, the new VNode is non-null, and
its `type` or `key` differs, `reconcile` (1) behaves exactly as unmounting
the old instance and then mounting the new VNode fresh at the same path;
(2) the unmount detaches every owned handle of the old instance from every
parent; (3) those handles are still detached after the fresh mount; (4) the
payload of every pre-existing handle — in particular the old instance's own
handle — is never mutated; and (5) the freshly mounted instance owns only
newly allocated handles, so the old handle is never reused in place. -/
theorem reconcile_mismatch_remounts (env : CompEnv) (fuel parent : Nat)
    (inst : Instance) (node : VNode) (path : String) (s : RecState)
    (hmis : inst.node.ty ≠ node.ty ∨ inst.key ≠ node.key)
    (hwf : ∀ m ∈ getDomNodes inst, m < s.dom.nextId) :
    reconcile env (fuel + 1) parent (some inst) (some node) path s =
      reconcile env fuel parent none (some node) path
        { s with dom := removeInstance s.dom parent (some inst) }
    ∧ (∀ m ∈ getDomNodes inst, ∀ q,
        m ∉ (removeInstance s.dom parent (some inst)).childrenOf q)
    ∧ (∀ m ∈ getDomNodes inst, ∀ q,
        m ∉ (reconcile env (fuel + 1) parent (some inst) (some node) path
          s).2.dom.childrenOf q)
    ∧ (∀ id, id < s.dom.nextId →
        (reconcile env (fuel + 1) parent (some inst) (some node) path
          s).2.dom.dataOf id = s.dom.dataOf id)
    ∧ (∀ m ∈ domNodesOf (reconcile env (fuel + 1) parent (some inst)
          (some node) path s).1,
        s.dom.nextId ≤ m) := by
  have hbranch : reconcile env (fuel + 1) parent (some inst) (some node) path s =
      reconcile env fuel parent none (some node) path
        { s with dom := removeInstance s.dom parent (some inst) } := by
    simp only [reconcile]
    rw [if_pos hmis]
  have hfresh := reconcile_mount_fresh env fuel parent (some node) path
    { s with dom := removeInstance s.dom parent (some inst) }
  refine ⟨hbranch, ?_, ?_, ?_, ?_⟩
  · intro m hm q
    exact removeInstance_detaches s.dom parent inst m hm q
  · intro m hm q hmem
    rw [hbranch] at hmem
    rcases hfresh.1.2.2 q m hmem with h' | h'
    · exact removeInstance_detaches s.dom parent inst m hm q h'
    · have : (removeInstance s.dom parent (some inst)).nextId = s.dom.nextId :=
        removeInstance_nextId _ _ _
      rw [this] at h'
      exact absurd (hwf m hm) (by omega)
  · intro id hid
    rw [hbranch]
    have h1 := hfresh.1.2.1 id
      (by rw [removeInstance_nextId]; exact hid)
    rw [h1]
    unfold DomState.dataOf
    rw [removeInstance_nodes]
  · intro m hm
    rw [hbranch] at hm
    have h1 := (hfresh.2 m hm).1
    rw [removeInstance_nextId] at h1
    exact h1

/-- **C1 witness.** Replacing the mounted `<div>` (handle 1) with a
`<span>` at the same path: the call equals unmount-then-mount, handle 1 is
fully detached before and after the remount, no pre-existing payload is
touched, and the new instance's handles are all fresh. -/
theorem reconcile_mismatch_remounts_witness :
    reconcile exEnv 2 0 (some exDivInst) (some exSpanNode) "" exRec =
      reconcile exEnv 1 0 none (some exSpanNode) ""
        { exRec with dom := removeInstance exRec.dom 0 (some exDivInst) }
    ∧ (∀ m ∈ getDomNodes exDivInst, ∀ q,
        m ∉ (removeInstance exRec.dom 0 (some exDivInst)).childrenOf q)
    ∧ (∀ m ∈ getDomNodes exDivInst, ∀ q,
        m ∉ (reconcile exEnv 2 0 (some exDivInst) (some exSpanNode) ""
          exRec).2.dom.childrenOf q)
    ∧ (∀ id, id < exRec.dom.nextId →
        (reconcile exEnv 2 0 (some exDivInst) (some exSpanNode) ""
          exRec).2.dom.dataOf id = exRec.dom.dataOf id)
    ∧ (∀ m ∈ domNodesOf (reconcile exEnv 2 0 (some exDivInst)
          (some exSpanNode) "" exRec).1,
        exRec.dom.nextId ≤ m) :=
  reconcile_mismatch_remounts exEnv 1 0 exDivInst exSpanNode "" exRec
    (Or.inl (by decide))
    (by
      intro m hm
      rw [show getDomNodes exDivInst = [1] from getDomNodes_mk_host _ _ _ _ _] at hm
      rcases List.mem_singleton.mp hm with rfl
      show (1 : Nat) < 2
      omega)

/-! ### C2: children are reconciled by position index -/

theorem reconcileChildrenF_length
    (rec : Nat → Option Instance → Option VNode → String → RecState →
      Option Instance × RecState)
    (parent : Nat) (olds : List (Option Instance)) (siblings : List VNode) :
    ∀ (rest : List VNode) (idx : Nat) (path : String) (s : RecState),
      (reconcileChildrenF rec parent olds siblings rest idx path s).1.length =
        rest.length := by
  intro rest
  induction rest with
  | nil => intro idx path s; rfl
  | cons child rest ih =>
      intro idx path s
      simp only [reconcileChildrenF, List.length_cons]
      rw [ih]

/-- Positional pairing: the i-th entry of the children loop's result is the
result of reconciling the i-th new child against `oldChildren[i] || null` at
the path built from index `i`, in the state left by the first `i` children. -/
theorem reconcileChildrenF_get
    (rec : Nat → Option Instance → Option VNode → String → RecState →
      Option Instance × RecState)
    (parent : Nat) (olds : List (Option Instance)) (siblings : List VNode) :
    ∀ (rest : List VNode) (idx : Nat) (path : String) (s : RecState)
      (i : Nat) (hi : i < rest.length),
      (reconcileChildrenF rec parent olds siblings rest idx path s).1.get? i =
        some ((rec parent ((olds.get? (idx + i)).getD none)
          (some (rest.get ⟨i, hi⟩))
          (createChildPath path (rest.get ⟨i, hi⟩).key (idx + i)
            (rest.get ⟨i, hi⟩).ty siblings)
          ((reconcileChildrenF rec parent olds siblings (rest.take i) idx path
            s).2)).1) := by
  intro rest
  induction rest with
  | nil =>
      intro idx path s i hi
      simp at hi
  | cons child rest ih =>
      intro idx path s i hi
      cases i with
      | zero =>
          simp only [reconcileChildrenF, List.get?_cons_zero, List.take_zero,
            List.get, Nat.add_zero]
      | succ i =>
          have hi' : i < rest.length := by
            simp only [List.length_cons] at hi
            omega
          simp only [reconcileChildrenF, List.get?_cons_succ, List.take_succ_cons,
            List.get]
          rw [ih (idx + 1) path
            ((rec parent ((olds.get? idx).getD none) (some child)
              (createChildPath path child.key idx child.ty siblings) s).2) i hi']
          have harith : idx + 1 + i = idx + (i + 1) := by omega
          rw [harith]

/-- **C2.** Updating a Fragment instance whose type and key are unchanged
reconciles each new child at index `i` against the old child instance at the
same index (or null when none exists), unmounts every surviving old child
beyond the new child count (its handles end up detached from every parent),
and recomputes the Fragment's handle as the first non-null descendant handle
of the new children; the Host-element update path treats its children
likewise. -/
theorem reconcile_update_children_by_index (env : CompEnv)
    (fuel parent : Nat) (inst : Instance) (node : VNode) (path : String)
    (s : RecState) (hty : inst.node.ty = .fragment)
    (hty2 : node.ty = .fragment) (hkey : inst.key = node.key) :
    reconcile env (fuel + 1) parent (some inst) (some node) path s =
      fragUpdateResult env fuel parent inst node path s
    ∧ (reconcileChildrenF (reconcile env fuel) parent inst.children
        node.children node.children 0 path s).1.length = node.children.length
    ∧ (∀ (i : Nat) (hi : i < node.children.length),
        (reconcileChildrenF (reconcile env fuel) parent inst.children
          node.children node.children 0 path s).1.get? i =
        some ((reconcile env fuel parent
          ((inst.children.get? i).getD none)
          (some (node.children.get ⟨i, hi⟩))
          (createChildPath path (node.children.get ⟨i, hi⟩).key i
            (node.children.get ⟨i, hi⟩).ty node.children)
          ((reconcileChildrenF (reconcile env fuel) parent inst.children
            node.children (node.children.take i) 0 path s).2)).1))
    ∧ (∀ (i : Nat) (c : Instance), node.children.length ≤ i →
        inst.children.get? i = some (some c) →
        ∀ m ∈ getDomNodes c, ∀ q,
          m ∉ (fragUpdateResult env fuel parent inst node path
            s).2.dom.childrenOf q)
    ∧ (∃ inst2, (fragUpdateResult env fuel parent inst node path s).1 =
          some inst2
        ∧ inst2.dom = getFirstDomFromChildren
            (reconcileChildrenF (reconcile env fuel) parent inst.children
              node.children node.children 0 path s).1
        ∧ inst2.children = (reconcileChildrenF (reconcile env fuel) parent
            inst.children node.children node.children 0 path s).1)
    ∧ (∀ (inst2 : Instance) (node2 : VNode) (tag : String) (id : Nat)
        (s2 : RecState) (path2 : String),
        inst2.node.ty = .host tag → node2.ty = .host tag →
        inst2.key = node2.key → inst2.dom = some id →
        s2.dom.isElem id = true →
        reconcile env (fuel + 1) parent (some inst2) (some node2) path2 s2 =
            hostUpdateResult env fuel id inst2 node2 path2 s2
          ∧ ∀ (i : Nat) (c : Instance), node2.children.length ≤ i →
              inst2.children.get? i = some (some c) →
              ∀ m ∈ getDomNodes c, ∀ q,
                m ∉ (hostUpdateResult env fuel id inst2 node2 path2
                  s2).2.dom.childrenOf q) := by
  have hcond : ¬ (inst.node.ty ≠ node.ty ∨ inst.key ≠ node.key) := by
    simp [hty, hty2, hkey]
  have heq : reconcile env (fuel + 1) parent (some inst) (some node) path s =
      fragUpdateResult env fuel parent inst node path s := by
    simp only [reconcile]
    rw [if_neg hcond]
    simp only [hty2]
    rfl
  refine ⟨heq, reconcileChildrenF_length _ _ _ _ _ _ _ _, ?_, ?_, ?_, ?_⟩
  · intro i hi
    have h := reconcileChildrenF_get (reconcile env fuel) parent inst.children
      node.children node.children 0 path s i hi
    simpa using h
  · intro i c hle hget m hm q hmem
    simp only [fragUpdateResult] at hmem
    obtain ⟨h1, h2⟩ := mem_removeTrailing _ _ _ _ _ _ hmem
    have hdrop : (inst.children.drop node.children.length).get?
        (i - node.children.length) = some (some c) := by
      rw [List.get?_eq_getElem?, List.getElem?_drop]
      rw [show node.children.length + (i - node.children.length) = i by omega]
      rw [← List.get?_eq_getElem?]
      exact hget
    have hmemdrop : (some c) ∈ inst.children.drop node.children.length :=
      List.get?_mem hdrop
    exact h2 (some c) hmemdrop c rfl hm
  · exact ⟨_, rfl, rfl, rfl⟩
  · intro inst2 node2 tag id s2 path2 hty' hty2' hkey' hdom hel
    have hcond2 : ¬ (inst2.node.ty ≠ node2.ty ∨ inst2.key ≠ node2.key) := by
      simp [hty', hty2', hkey']
    have heq2 : reconcile env (fuel + 1) parent (some inst2) (some node2)
        path2 s2 = hostUpdateResult env fuel id inst2 node2 path2 s2 := by
      simp only [reconcile]
      rw [if_neg hcond2]
      simp only [hty2', hdom, hel, if_true]
      simp only [hostUpdateResult, hdom]
    refine ⟨heq2, ?_⟩
    intro i c hle hget m hm q hmem
    simp only [hostUpdateResult] at hmem
    obtain ⟨h1, h2⟩ := mem_removeTrailing _ _ _ _ _ _ hmem
    have hdrop : (inst2.children.drop node2.children.length).get?
        (i - node2.children.length) = some (some c) := by
      rw [List.get?_eq_getElem?, List.getElem?_drop]
      rw [show node2.children.length + (i - node2.children.length) = i by omega]
      rw [← List.get?_eq_getElem?]
      exact hget
    exact h2 (some c) (List.get?_mem hdrop) c rfl hm

/-- **C2 witness.** Shrinking the Fragment from one text child to none: the
call equals the index-wise update result, and the surviving old child at
index 0 (beyond the new length 0) ends up fully detached. -/
theorem reconcile_update_children_by_index_witness :
    reconcile exEnv 1 0 (some exFragInst) (some exFragNode2) "" exRec2 =
      fragUpdateResult exEnv 0 0 exFragInst exFragNode2 "" exRec2
    ∧ ∀ m ∈ getDomNodes exTextInst, ∀ q,
        m ∉ (fragUpdateResult exEnv 0 0 exFragInst exFragNode2 ""
          exRec2).2.dom.childrenOf q :=
  have h := reconcile_update_children_by_index exEnv 0 0 exFragInst
    exFragNode2 "" exRec2 rfl rfl rfl
  ⟨h.1, fun m hm q =>
    h.2.2.2.1 0 exTextInst (by simp [exFragNode2, VNode.children]) rfl m hm q⟩

/-! ### C6: setup is a hard reset -/

theorem cleanupUnusedHooks_dom (st : AppState) :
    (cleanupUnusedHooks st).dom = st.dom := rfl

theorem cleanupUnusedHooks_flushScheduled (st : AppState) :
    (cleanupUnusedHooks st).flushScheduled = st.flushScheduled := rfl

theorem cleanupUnusedHooks_effectQueue (st : AppState) :
    (cleanupUnusedHooks st).effectQueue = st.effectQueue := rfl

theorem teardownPrev_renderCount (st : AppState) :
    (teardownPrev st).renderCount = st.renderCount := by
  unfold teardownPrev
  rcases hc : st.rootContainer with _ | pc <;>
    rcases hi : st.rootInstance with _ | pi <;>
      simp [AppState.mapDom]

theorem teardownPrev_flushScheduled (st : AppState) :
    (teardownPrev st).flushScheduled = st.flushScheduled := by
  unfold teardownPrev
  rcases hc : st.rootContainer with _ | pc <;>
    rcases hi : st.rootInstance with _ | pi <;>
      simp [AppState.mapDom]

theorem teardownPrev_effectQueue (st : AppState) :
    (teardownPrev st).effectQueue = st.effectQueue := by
  unfold teardownPrev
  rcases hc : st.rootContainer with _ | pc <;>
    rcases hi : st.rootInstance with _ | pi <;>
      simp [AppState.mapDom]

theorem teardownPrev_nextId (st : AppState) :
    (teardownPrev st).dom.nextId = st.dom.nextId := by
  unfold teardownPrev
  rcases hc : st.rootContainer with _ | pc <;>
    rcases hi : st.rootInstance with _ | pi <;>
      simp [AppState.mapDom, removeInstance_nextId]

theorem teardownPrev_children_sub (st : AppState) (q m : Nat)
    (h : m ∈ (teardownPrev st).dom.childrenOf q) :
    m ∈ st.dom.childrenOf q := by
  unfold teardownPrev at h
  rcases hc : st.rootContainer with _ | pc <;>
    rcases hi : st.rootInstance with _ | pi <;>
      simp only [hc, hi, AppState.mapDom] at h
  · exact h
  · exact h
  · exact h
  · exact (mem_removeInstance _ _ _ _ _ h).1

theorem teardownPrev_detach (st : AppState) (pc : Nat) (pi : Instance)
    (hc : st.rootContainer = some pc) (hi : st.rootInstance = some pi)
    (m : Nat) (hm : m ∈ getDomNodes pi) (q : Nat) :
    m ∉ (teardownPrev st).dom.childrenOf q := by
  unfold teardownPrev
  simp only [hc, hi, AppState.mapDom]
  exact removeInstance_detaches st.dom pc pi m hm q

/-- The output of a render pass over an empty hook store with no previous
root instance (the situation `setup` puts the context in). -/
theorem render_fresh_props (env : CompEnv) (fuel c : Nat) (n : VNode)
    (stIn : AppState) (hc : stIn.rootContainer = some c)
    (hn : stIn.rootNode = some n) (hi : stIn.rootInstance = none)
    (hh : stIn.hookState = []) :
    (∀ p, alookup p (render env fuel stIn).hookState = none)
    ∧ (render env fuel stIn).effectQueue = stIn.effectQueue
    ∧ (render env fuel stIn).renderCount = stIn.renderCount + 1
    ∧ (render env fuel stIn).flushScheduled = stIn.flushScheduled + 1
    ∧ (∀ q m, m ∈ (render env fuel stIn).dom.childrenOf q →
        m ∈ stIn.dom.childrenOf q ∨ stIn.dom.nextId ≤ m) := by
  have hfresh := reconcile_mount_fresh env fuel c (some n) ""
    { dom := stIn.dom, cursorMap := [], visited := [], componentStack := [] }
  unfold render
  simp only [hc, hn, hi]
  refine ⟨?_, ?_, ?_, ?_, ?_⟩
  · intro p
    simp [cleanupUnusedHooks, hh, alookup]
  · simp [cleanupUnusedHooks]
  · simp [cleanupUnusedHooks]
  · simp [cleanupUnusedHooks]
  · intro q m hmem
    simp only [cleanupUnusedHooks] at hmem
    exact hfresh.1.2.2 q m hmem

/-- **C6.** `setup(rootNode, container)` throws when the root is null or the
container is not an element handle; otherwise it hard-resets: all hook state
is discarded unconditionally, the effect queue is cleared, exactly one
render pass runs synchronously before `setup` returns (the effect flush
staying deferred), the container ends up holding only freshly mounted
handles, and the previous root instance tree is fully detached.  A state
hook at any path (even one coinciding with a pre-setup path) then
re-initializes to its initial value, since its store entry is gone. -/
theorem setup_hard_reset (env : CompEnv) (fuel : Nat)
    (rootNode : Option VNode) (container : Nat) (st : AppState) :
    ((rootNode = none ∨ st.dom.isElem container = false) →
      setup env fuel rootNode container st = .error "컨테이너가 없습니다")
    ∧ (∀ (rn : VNode) (st2 : AppState), rootNode = some rn →
        st.dom.isElem container = true →
        setup env fuel rootNode container st = .ok st2 →
        (∀ p, alookup p st2.hookState = none)
        ∧ st2.effectQueue = []
        ∧ st2.renderCount = st.renderCount + 1
        ∧ st.flushScheduled + 1 ≤ st2.flushScheduled
        ∧ (∀ m ∈ st2.dom.childrenOf container, st.dom.nextId ≤ m)
        ∧ (∀ pc pi, st.rootContainer = some pc → st.rootInstance = some pi →
            (∀ m ∈ getDomNodes pi, m < st.dom.nextId) →
            ∀ m ∈ getDomNodes pi, ∀ q, m ∉ st2.dom.childrenOf q))
    ∧ (∀ (p : String) (init : InitVal) (stx : AppState),
        alookup p stx.hookState = none → stx.componentStack = [p] →
        (alookup p stx.cursorMap).getD 0 = 0 →
        (useState init stx).1 = init.eval) := by
  refine ⟨?_, ?_, ?_⟩
  · intro h
    have hcond : ¬ st.dom.isElem container ∨ rootNode.isNone := by
      rcases h with h | h
      · exact Or.inr (by simp [h])
      · exact Or.inl (by simp [h])
    unfold setup
    rw [if_pos hcond]
  · intro rn st2 hrn hel hok
    subst hrn
    have hcond : ¬ (¬ st.dom.isElem container ∨
        (some rn : Option VNode).isNone) := by simp [hel]
    unfold setup at hok
    rw [if_neg hcond] at hok
    simp only [] at hok
    rw [Except.ok.injEq] at hok
    subst hok
    set X : AppState := (cleanupUnusedHooks (teardownPrev st)).mapDom
      (fun d => { d with childrenMap := aset container [] d.childrenMap })
      with hX
    set Y : AppState :=
      { dom := X.dom
        hookState := []
        cursorMap := []
        visited := []
        componentStack := []
        effectQueue := []
        rootContainer := some container
        rootNode := some rn
        rootInstance := none
        renderScheduled := X.renderScheduled
        renderRequests := X.renderRequests
        renderCount := X.renderCount
        flushScheduled := X.flushScheduled
        execLog := X.execLog } with hY
    have hprops := render_fresh_props env fuel container rn Y rfl rfl rfl rfl
    have hYnext : Y.dom.nextId = st.dom.nextId := by
      rw [hY, hX]
      simp [AppState.mapDom, cleanupUnusedHooks_dom, teardownPrev_nextId]
    have hYcont : Y.dom.childrenOf container = [] := by
      rw [hY, hX]
      simp [AppState.mapDom, DomState.childrenOf, alookup_aset_self]
    have hYchild : ∀ q m, q ≠ container → m ∈ Y.dom.childrenOf q →
        m ∈ (teardownPrev st).dom.childrenOf q := by
      intro q m hq hmem
      rw [hY, hX] at hmem
      simp only [AppState.mapDom, DomState.childrenOf] at hmem
      rw [show ((cleanupUnusedHooks (teardownPrev st)).dom.childrenMap :
          List (Nat × List Nat)) = (teardownPrev st).dom.childrenMap from rfl]
        at hmem
      rw [alookup_aset_ne container q _ _ (fun hh => hq hh.symm)] at hmem
      exact hmem
    refine ⟨?_, ?_, ?_, ?_, ?_, ?_⟩
    · intro p
      exact hprops.1 p
    · show (render env fuel Y).effectQueue = []
      rw [hprops.2.1, hY]
    · show (render env fuel Y).renderCount = st.renderCount + 1
      rw [hprops.2.2.1]
      have hYrc : Y.renderCount = st.renderCount := by
        rw [hY, hX]
        simp [AppState.mapDom, cleanupUnusedHooks, teardownPrev_renderCount]
      rw [hYrc]
    · show st.flushScheduled + 1 ≤ (render env fuel Y).flushScheduled + 1
      rw [hprops.2.2.2.1]
      have hYfs : Y.flushScheduled = st.flushScheduled := by
        rw [hY, hX]
        simp [AppState.mapDom, cleanupUnusedHooks, teardownPrev_flushScheduled]
      omega
    · intro m hm
      have hm2 : m ∈ (render env fuel Y).dom.childrenOf container := hm
      rcases hprops.2.2.2.2 container m hm2 with h | h
      · rw [hYcont] at h
        simp at h
      · rw [hYnext] at h
        exact h
    · intro pc pi hpc hpi hwf m hm q hmem
      have hmem2 : m ∈ (render env fuel Y).dom.childrenOf q := hmem
      rcases hprops.2.2.2.2 q m hmem2 with h | h
      · by_cases hq : q = container
        · subst hq
          rw [hYcont] at h
          simp at h
        · exact teardownPrev_detach st pc pi hpc hpi m hm q (hYchild q m hq h)
      · rw [hYnext] at h
        have := hwf m hm
        omega
  · intro p init stx h1 h2 h3
    simp [useState, AppState.curPath, AppState.curCursor, AppState.curHooks,
      h1, h2, h3, slotIsUndefined, setSlot]

/-- **C6 witness.** A null root makes `setup` throw; a successful `setup`
on `exStateRoot` discards path `"p"`'s hook state and performs exactly one
synchronous render; a fresh `useState` then returns its initial value. -/
theorem setup_hard_reset_witness :
    setup exEnv 1 none 0 exStateRoot = .error "컨테이너가 없습니다"
    ∧ (∀ p, alookup p exSetupOut.hookState = none)
    ∧ exSetupOut.renderCount = exStateRoot.renderCount + 1
    ∧ (useState (.val (.int 7)) exUseSt).1 = (InitVal.val (.int 7)).eval :=
  have h2 := (setup_hard_reset exEnv 2 (some exRootNode) 0 exStateRoot).2.1
    exRootNode exSetupOut rfl rfl rfl
  ⟨(setup_hard_reset exEnv 1 none 0 exStateRoot).1 (Or.inl rfl),
   h2.1, h2.2.2.1,
   (setup_hard_reset exEnv 1 none 0 exStateRoot).2.2 "p" (.val (.int 7))
     exUseSt rfl rfl rfl⟩

end MiniReact
